import Mathlib

/-!
Shallow embedding of the vcal-core HNSW index (graph.rs, lib.rs, node.rs,
serialize.rs, rand_level.rs) and proofs about the spec's claims.

Modelling conventions:
* `f32` vector components and distances are modelled by `ℚ`.  The graph code
  never does arithmetic on distances, it only compares and sorts them, so the
  exact-rational idealisation is faithful for every metric callback that is
  itself modelled exactly (the `Dot` metric `1 − a·b` is exact).
* The `rand_level` sampler is modelled over `ℝ` (it uses `exp`/`ln`), as a
  function of the stream of uniform draws.
* Rust `HashMap<u64, NodeId>` is modelled by an association list with
  insert-replaces semantics (`extInsert` removes the old binding), so keys are
  unique and lookup/remove agree with the hash map.
* Rust `BinaryHeap` pops the maximum under the lexicographic order on its
  element tuples; ties between equal keys cannot occur in the heaps used here
  (each node is pushed at most once, so the `(dist, id)` pairs are distinct and
  the pop is deterministic).  The iteration order of the final `top` heap is
  unspecified in Rust; every caller immediately sorts by distance, and all
  concrete traces in this file use pairwise-distinct distances, so the model's
  order is observationally equal.
* Loops whose termination is by strict descent on a finite structure
  (`greedy`, the ef-search loop, `repair_after_mass_deletes`) are given a fuel
  argument that provably dominates the number of iterations
  (`nodes.length + 1`, resp. `max_level + 1`), so the fuel never runs out.
* `usize` arithmetic is modelled by `ℕ` (no overflow at the sizes involved);
  the `isize` byte deltas are modelled by `ℤ` with the same saturating
  application to `total_bytes` as the source.
-/

namespace VCal

abbrev NodeId := Nat
abbrev Vec := List ℚ
/-- The `Metric` trait: a distance callback (`smaller = closer`). -/
abbrev MetricFn := Vec → Vec → ℚ

/-- The `Dot` metric from math.rs: `1 − a·b` (scalar path; both slices have
equal length at every call site). -/
def dotp (a b : Vec) : ℚ := ((a.zip b).map (fun p => p.1 * p.2)).sum

def dotDistance (a b : Vec) : ℚ := 1 - dotp a b

/-! ### List helpers mirroring Rust primitives -/

/-- `Vec::swap_remove(i)`: replace element `i` with the last element and pop.
(For an in-range `i` this equals the Rust behaviour; all call sites pass an
index found by `position`.) -/
def swapRemove (xs : List Nat) (i : Nat) : List Nat :=
  (xs.set i (xs.getLastD 0)).dropLast

/-- Rust `Vec::dedup`: remove consecutive duplicates. -/
def rdedup : List Nat → List Nat
  | [] => []
  | [x] => [x]
  | x :: y :: rest => if x = y then rdedup (y :: rest) else x :: rdedup (y :: rest)

/-- Insert into a sorted list after all elements `y` with `le y x`; the
building block of a stable sort. -/
def insSorted (le : α → α → Bool) : List α → α → List α
  | [], x => [x]
  | y :: ys, x => if le y x then y :: insSorted le ys x else x :: y :: ys

/-- Stable sort (insertion sort, processing elements in original order), used
for `sort_by`/`sort_unstable` (the latter on `Nat` keys where stability is
irrelevant). -/
def sortByD (le : α → α → Bool) (l : List α) : List α := l.foldl (insSorted le) []

/-- Descending range `[hi, hi-1, …, lo]` (empty if `hi < lo`), mirroring Rust
`(lo..=hi).rev()`. -/
def revRange (lo hi : Nat) : List Nat := (List.range (hi + 1 - lo)).map (fun i => hi - i)

/-! ### Node (node.rs) -/

structure Node where
  ext_id : Nat
  vec : Vec
  links : List (List NodeId)
  last_hit : Nat
  deleted : Bool
  bytes : Nat
deriving DecidableEq, Repr

instance : Inhabited Node := ⟨⟨0, [], [], 0, true, 0⟩⟩

/-- Approximate footprint: `vec.len * size_of::<f32>() + Σ links[l].len *
size_of::<NodeId>()` with `size_of::<f32>() = 4`, `size_of::<usize>() = 8`. -/
def Node.bytesOf (n : Node) : Nat :=
  n.vec.length * 4 + (n.links.map (fun l => l.length * 8)).sum

/-- `recompute_bytes`: store and return the recomputed footprint. -/
def Node.recompute_bytes (n : Node) : Node × Nat :=
  ({ n with bytes := n.bytesOf }, n.bytesOf)

/-- `Node::new` (the creation timestamp is passed in as `now`). -/
def Node.new (ext_id : Nat) (level : Nat) (vec : Vec) (now : Nat) : Node :=
  (Node.recompute_bytes
    { ext_id := ext_id, vec := vec, links := List.replicate (level + 1) [],
      last_hit := now, deleted := false, bytes := 0 }).1

def Node.ensureLayer (n : Node) (layer : Nat) : Node :=
  if layer < n.links.length then n
  else { n with links := n.links ++ List.replicate (layer + 1 - n.links.length) [] }

def setLayer (n : Node) (layer : Nat) (adj : List NodeId) : Node :=
  { n with links := n.links.set layer adj }

/-! ### the `by_ext` hash map -/

def extLookup (m : List (Nat × NodeId)) (k : Nat) : Option NodeId :=
  (m.find? (fun p => p.1 == k)).map (·.2)

def extInsert (m : List (Nat × NodeId)) (k : Nat) (v : NodeId) : List (Nat × NodeId) :=
  (k, v) :: m.filter (fun p => p.1 != k)

def extRemove (m : List (Nat × NodeId)) (k : Nat) : List (Nat × NodeId) :=
  m.filter (fun p => p.1 != k)

/-! ### Graph (graph.rs) -/

structure Graph where
  nodes : List Node
  levels : List (List NodeId)
  max_level : Nat
  entry : Option NodeId
  by_ext : List (Nat × NodeId)
  active : Nat
  total_bytes : Nat
deriving DecidableEq, Repr

/-- `Graph::new` -/
def Graph.new : Graph :=
  { nodes := [], levels := [[]], max_level := 0, entry := none,
    by_ext := [], active := 0, total_bytes := 0 }

def getNode (g : Graph) (nid : NodeId) : Node := g.nodes.getD nid default

def setNode (g : Graph) (nid : NodeId) (n : Node) : Graph :=
  { g with nodes := g.nodes.set nid n }

/-- Safe neighbor accessor (empty slice when out of range). -/
def Graph.neighbors (g : Graph) (nid layer : Nat) : List NodeId :=
  if nid < g.nodes.length then (getNode g nid).links.getD layer [] else []

def Graph.is_valid_nid (g : Graph) (nid : NodeId) : Bool :=
  decide (nid < g.nodes.length) && !(getNode g nid).deleted

/-- `pick_entry`: first valid node scanning levels from the top. -/
def Graph.pick_entry (g : Graph) : Option NodeId :=
  ((List.range g.levels.length).reverse).findSome? (fun lvl =>
    (g.levels.getD lvl []).find? (fun nid => g.is_valid_nid nid))

def Graph.contains_ext (g : Graph) (ext_id : Nat) : Bool :=
  (extLookup g.by_ext ext_id).isSome

def Graph.stats (g : Graph) : Nat × Nat := (g.active, g.total_bytes)

/-- Apply an accumulated signed byte delta to `total_bytes`, saturating at 0
(as `saturating_add`/`saturating_sub` in the source). -/
def applyDelta (g : Graph) (delta : Int) : Graph :=
  if 0 ≤ delta then { g with total_bytes := g.total_bytes + delta.toNat }
  else { g with total_bytes := g.total_bytes - (-delta).toNat }

/-! ### greedy descent -/

/-- One pass of the greedy loop: iterate the neighbor list of the pass's
starting node, moving to any strictly closer neighbor (the Rust `for` loop
iterates the adjacency captured at loop entry while `curr` evolves). -/
def Graph.greedyPass (g : Graph) (d : MetricFn) (q : Vec) (layer : Nat) (curr : NodeId) :
    NodeId × Bool :=
  (g.neighbors curr layer).foldl (fun acc nb =>
    if g.is_valid_nid nb && decide (d (getNode g nb).vec q < d (getNode g acc.1).vec q)
    then (nb, true) else acc) (curr, false)

/-- The `loop { … if !improved break }`; each improving pass strictly decreases
`d(curr, q)`, so `nodes.length + 1` passes always suffice. -/
def Graph.greedyLoop (g : Graph) (d : MetricFn) (q : Vec) (layer : Nat) :
    Nat → NodeId → NodeId
  | 0, curr => curr
  | fuel + 1, curr =>
    let p := g.greedyPass d q layer curr
    if p.2 then g.greedyLoop d q layer fuel p.1 else curr

def Graph.greedy_idx (g : Graph) (d : MetricFn) (curr : NodeId) (q : Vec) (layer : Nat) :
    NodeId :=
  if !(g.is_valid_nid curr) || (g.neighbors curr layer).isEmpty then curr
  else g.greedyLoop d q layer (g.nodes.length + 1) curr

def Graph.greedy (g : Graph) (d : MetricFn) (curr target : NodeId) (layer : Nat) : NodeId :=
  g.greedy_idx d curr (getNode g target).vec layer

/-! ### ef-search -/

/-- Pop of `BinaryHeap<(Reverse(OrderedFloat), NodeId)>`: the maximum under
the lexicographic order on `(Reverse dist, nid)`, i.e. smallest distance and,
among equal distances, largest id. -/
def tvPop (l : List (ℚ × NodeId)) : Option ((ℚ × NodeId) × List (ℚ × NodeId)) :=
  match l with
  | [] => none
  | x :: xs =>
    let best := xs.foldl (fun b a =>
      if a.1 < b.1 ∨ (a.1 = b.1 ∧ b.2 < a.2) then a else b) x
    some (best, (x :: xs).erase best)

/-- Peek of `BinaryHeap<(OrderedFloat, NodeId)>`: maximum under `(dist, nid)`. -/
def topPeek (l : List (ℚ × NodeId)) : Option (ℚ × NodeId) :=
  match l with
  | [] => none
  | x :: xs =>
    some (xs.foldl (fun b a => if b.1 < a.1 ∨ (b.1 = a.1 ∧ b.2 < a.2) then a else b) x)

def topPopWorst (l : List (ℚ × NodeId)) : List (ℚ × NodeId) :=
  match topPeek l with
  | none => l
  | some w => l.erase w

/-- Body of the ef-search `while` loop.  State: visited set, `top` heap
contents, `to_visit` heap contents.  `worst` is read once per expansion (the
source computes it before the inner `for` and does not refresh it). -/
def Graph.efLoop (g : Graph) (d : MetricFn) (q : Vec) (ef layer : Nat) :
    Nat → List NodeId → List (ℚ × NodeId) → List (ℚ × NodeId) → List (ℚ × NodeId)
  | 0, _, top, _ => top
  | fuel + 1, visited, top, to_visit =>
    match tvPop to_visit with
    | none => top
    | some (c, tv1) =>
      let neighs := g.neighbors c.2 layer
      if neighs.isEmpty then g.efLoop d q ef layer fuel visited top tv1
      else
        let worst := (topPeek top).map (·.1)
        let st := neighs.foldl (fun (st : List NodeId × List (ℚ × NodeId) × List (ℚ × NodeId)) nb =>
          if !(g.is_valid_nid nb) then st
          else if nb ∈ st.1 then st
          else
            let dd := d (getNode g nb).vec q
            if decide (st.2.1.length < ef) ||
                (match worst with | none => true | some w => decide (dd < w)) then
              let tp2 := (dd, nb) :: st.2.1
              (nb :: st.1, (if ef < tp2.length then topPopWorst tp2 else tp2),
               (dd, nb) :: st.2.2)
            else (nb :: st.1, st.2.1, st.2.2)) (visited, top, tv1)
        g.efLoop d q ef layer fuel st.1 st.2.1 st.2.2

/-- `ef_search_idx`: each node enters `to_visit` at most once (the visited
check guards every push), so `nodes.length + 1` iterations always suffice. -/
def Graph.ef_search_idx (g : Graph) (d : MetricFn) (entry : NodeId) (q : Vec)
    (ef layer : Nat) : List (NodeId × ℚ) :=
  if !(g.is_valid_nid entry) then []
  else
    let d0 := d (getNode g entry).vec q
    let top := g.efLoop d q ef layer (g.nodes.length + 1) [entry] [(d0, entry)] [(d0, entry)]
    top.map (fun p => (p.2, p.1))

/-! ### connect / prune -/

/-- Greedy HNSW neighbor selection in `connect` (the `continue`/`break`
structure of the Rust loop is mirrored: self is skipped before the capacity
check). `sel` accumulates in push order. -/
def Graph.selectNeigh (g : Graph) (d : MetricFn) (nid : NodeId) (m : Nat) :
    List NodeId → List NodeId → List NodeId
  | [], sel => sel
  | c :: rest, sel =>
    if c = nid then g.selectNeigh d nid m rest sel
    else if m ≤ sel.length then sel
    else if sel.all (fun s =>
        decide (d (getNode g c).vec (getNode g nid).vec < d (getNode g c).vec (getNode g s).vec))
    then g.selectNeigh d nid m rest (sel ++ [c])
    else g.selectNeigh d nid m rest sel

/-- The greedy keep-loop of `prune_degree_hnsw`. -/
def Graph.prKeep (g : Graph) (d : MetricFn) (nid : NodeId) (m : Nat) :
    List (NodeId × ℚ) → List NodeId → List NodeId
  | [], keep => keep
  | c :: rest, keep =>
    if m ≤ keep.length then keep
    else if keep.all (fun s =>
        decide (d (getNode g c.1).vec (getNode g nid).vec < d (getNode g c.1).vec (getNode g s).vec))
    then g.prKeep d nid m rest (keep ++ [c.1])
    else g.prKeep d nid m rest keep

/-- `prune_degree_hnsw`.  The `mem::take` followed by an unconditional
restore in the `≤ m` case is a net no-op, so the graph is returned unchanged
there. -/
def Graph.prune_degree_hnsw (g : Graph) (d : MetricFn) (nid layer m : Nat) : Graph :=
  let adj := (getNode g nid).links.getD layer []
  if adj.length ≤ m then g
  else
    let cand := (adj.filter (fun c =>
        decide (c < g.nodes.length) && !(getNode g c).deleted && c != nid)).map
      (fun c => (c, d (getNode g c).vec (getNode g nid).vec))
    let cand := sortByD (fun a b => decide (a.2 ≤ b.2)) cand
    let keep := g.prKeep d nid m cand []
    setNode g nid (setLayer (getNode g nid) layer keep)

/-- One back-edge step of `connect` (the body of the `for &s in
&selected_valid` loop). -/
def Graph.connectBack (d : MetricFn) (nid layer m : Nat) (st : Graph × Int) (s : NodeId) :
    Graph × Int :=
  let g := st.1
  let pr := (getNode g s).recompute_bytes
  let g := setNode g s pr.1
  let adj := (getNode g s).links.getD layer [] ++ [nid]
  let adj := adj.filter (fun x =>
    x != s && decide (x < g.nodes.length) && !(getNode g x).deleted)
  let adj := rdedup (sortByD (fun a b => decide (a ≤ b)) adj)
  let g := setNode g s (setLayer (getNode g s) layer adj)
  let g := g.prune_degree_hnsw d s layer m
  let po := (getNode g s).recompute_bytes
  let g := setNode g s po.1
  (g, st.2 + ((po.2 : Int) - (pr.2 : Int)))

/-- `Graph::connect`. -/
def Graph.connect (g0 : Graph) (d : MetricFn) (nid : NodeId) (neigh : List NodeId)
    (m layer : Nat) : Graph :=
  let selected := g0.selectNeigh d nid m neigh []
  let selected_valid := selected.filter (fun s =>
    decide (s < g0.nodes.length) && !(getNode g0 s).deleted && s != nid)
  let g1 := setNode g0 nid ((getNode g0 nid).ensureLayer layer)
  let g2 := selected_valid.foldl (fun g s => setNode g s ((getNode g s).ensureLayer layer)) g1
  let pr := (getNode g2 nid).recompute_bytes
  let g3 := setNode g2 nid pr.1
  let adj := (getNode g3 nid).links.getD layer [] ++ selected_valid
  let adj := adj.filter (fun x =>
    x != nid && decide (x < g3.nodes.length) && !(getNode g3 x).deleted)
  let adj := rdedup (sortByD (fun a b => decide (a ≤ b)) adj)
  let g4 := setNode g3 nid (setLayer (getNode g3 nid) layer adj)
  let po := (getNode g4 nid).recompute_bytes
  let g5 := setNode g4 nid po.1
  let st := selected_valid.foldl (Graph.connectBack d nid layer m)
    (g5, (po.2 : Int) - (pr.2 : Int))
  let g7 := st.1.prune_degree_hnsw d nid layer m
  applyDelta g7 st.2

/-! ### delete -/

/-- Unlink `nid` from one neighbor on layer `l` (body of the inner `for nb in
neigh` loop of `Graph::delete`). -/
def Graph.deleteNb (nid : NodeId) (l : Nat) (st : Graph × Int) (nb : NodeId) : Graph × Int :=
  let g := st.1
  if g.nodes.length ≤ nb then st
  else if (getNode g nb).deleted then st
  else if (getNode g nb).links.length ≤ l then st
  else
    let pr := (getNode g nb).recompute_bytes
    let g := setNode g nb pr.1
    let adj := (getNode g nb).links.getD l []
    let adj := match adj.findIdx? (fun x => x == nid) with
      | some pos => swapRemove adj pos
      | none => adj
    let g := setNode g nb (setLayer (getNode g nb) l adj)
    let po := (getNode g nb).recompute_bytes
    let g := setNode g nb po.1
    (g, st.2 + ((po.2 : Int) - (pr.2 : Int)))

/-- One layer of the unlink phase of `Graph::delete` (`mem::take` empties the
node's own adjacency before the neighbors are visited). -/
def Graph.deleteLayer (nid : NodeId) (st : Graph × Int) (l : Nat) : Graph × Int :=
  let g := st.1
  let neigh := (getNode g nid).links.getD l []
  let g := setNode g nid (setLayer (getNode g nid) l [])
  neigh.foldl (Graph.deleteNb nid l) (g, st.2)

/-- Remove `nid` from one `levels` registry list (swap-remove at the first
occurrence). -/
def levelsRemove (lv : List (List NodeId)) (nid : NodeId) (l : Nat) : List (List NodeId) :=
  let lst := lv.getD l []
  match lst.findIdx? (fun x => x == nid) with
  | some pos => lv.set l (swapRemove lst pos)
  | none => lv

/-- Unlink phase of `Graph::delete`: capture the node's bytes, strip every
layer, unlink from the neighbors, recapture. -/
def Graph.deleteUnlink (g0 : Graph) (nid : NodeId) : Graph × Int :=
  let pr := (getNode g0 nid).recompute_bytes
  let g := setNode g0 nid pr.1
  let levelsCnt := (getNode g nid).links.length
  let st := (List.range levelsCnt).foldl (Graph.deleteLayer nid) (g, (0 : Int))
  let g := st.1
  let pa := (getNode g nid).recompute_bytes
  let g := setNode g nid pa.1
  (g, st.2 + ((pa.2 : Int) - (pr.2 : Int)))

/-- Tombstone phase of `Graph::delete`: clear the vector, set `deleted`,
account the byte change. -/
def Graph.deleteMark (g0 : Graph) (nid : NodeId) : Graph × Int :=
  let pb := (getNode g0 nid).recompute_bytes
  let g := setNode g0 nid pb.1
  let g := setNode g nid { getNode g nid with vec := [], deleted := true }
  let pc := (getNode g nid).recompute_bytes
  let g := setNode g nid pc.1
  (g, (pc.2 : Int) - (pb.2 : Int))

/-- Registry phase of `Graph::delete`: decrement `active`, drop `nid` from
every level list, re-pick `entry` if it pointed at `nid`. -/
def Graph.deleteRegistry (g0 : Graph) (nid : NodeId) : Graph :=
  let g := { g0 with active := g0.active - 1 }
  let lv' := (List.range g.levels.length).foldl (fun lv l => levelsRemove lv nid l) g.levels
  let g := { g with levels := lv' }
  if g.entry = some nid then
    { g with entry := g.levels.reverse.findSome? (fun lvl => lvl.head?) } else g

/-- `Graph::delete` (idempotent delete by external id).  Note the source
removes the `by_ext` binding before the early-false checks. -/
def Graph.delete (g0 : Graph) (ext_id : Nat) : Graph × Bool :=
  match extLookup g0.by_ext ext_id with
  | none => (g0, false)
  | some nid =>
    let g := { g0 with by_ext := extRemove g0.by_ext ext_id }
    if g.nodes.length ≤ nid then (g, false)
    else if (getNode g nid).deleted then (g, false)
    else
      let u := g.deleteUnlink nid
      let mk := u.1.deleteMark nid
      let g2 := mk.1.deleteRegistry nid
      (applyDelta g2 (u.2 + mk.2), true)

/-! ### add (insert) -/

/-- One layer iteration of the connect phase of `Graph::add` (the `entry` is
fixed across the whole loop in the source). -/
def Graph.addLayer (d : MetricFn) (node_id : NodeId) (m ef entry : Nat)
    (g : Graph) (l : Nat) : Graph :=
  let ef_eff := max ef (max m 1)
  let neigh := g.ef_search_idx d entry (getNode g node_id).vec ef_eff l
  let neigh := sortByD (fun a b => decide (a.2 ≤ b.2)) neigh
  let ids := (neigh.map (·.1)).filter (fun x => x != node_id)
  let ids := if ids.isEmpty ∧ entry ≠ node_id then [entry] else ids
  let ids := ids.filter (fun x =>
    decide (x < g.nodes.length) && !(getNode g x).deleted && x != node_id)
  g.connect d node_id ids m l

/-- Connect phase plus registry tail of `Graph::add`. -/
def Graph.addFinish (g0 : Graph) (d : MetricFn) (node_id : NodeId)
    (m ef entry lvl old_max : Nat) : Graph :=
  let g := (revRange 0 lvl).foldl (Graph.addLayer d node_id m ef entry) g0
  let g := if g.entry.isNone then { g with entry := some node_id } else g
  let g := if old_max < lvl then { g with max_level := lvl } else g
  let g := { g with levels := g.levels ++ List.replicate (lvl + 1 - g.levels.length) [] }
  { g with levels := g.levels.set lvl (g.levels.getD lvl [] ++ [node_id]) }

/-- Tower extension plus node allocation/registration of `Graph::add`
(`node_id` is the pre-push arena length). -/
def addPadPush (g1 : Graph) (ext_id lvl now : Nat) (vec : Vec) : Graph :=
  let gPad := if g1.max_level < lvl then
      { g1 with levels := g1.levels ++ List.replicate (lvl - g1.max_level) [] } else g1
  let node := Node.new ext_id lvl vec now
  { gPad with
    total_bytes := gPad.total_bytes + node.bytes
    active := gPad.active + 1
    nodes := gPad.nodes ++ [node]
    by_ext := extInsert gPad.by_ext ext_id g1.nodes.length }

/-- The body of `Graph::add` after the upsert resolution: allocate the node,
register it, descend, connect, finish. -/
def Graph.addNode (g1 : Graph) (d : MetricFn) (vec : Vec) (ext_id : Nat)
    (m ef lvl now : Nat) : Graph :=
  let node_id := g1.nodes.length
  let old_max := g1.max_level
  let old_entry := g1.entry
  let g := addPadPush g1 ext_id lvl now vec
  let entry0 := old_entry.getD node_id
  let entry := if node_id ≠ entry0 ∧ lvl + 1 ≤ old_max then
      (revRange (lvl + 1) old_max).foldl (fun e l => g.greedy d e node_id l) entry0
    else entry0
  g.addFinish d node_id m ef entry lvl old_max

/-- `Graph::add`.  `draw_level`'s random output is the explicit `lvl`
argument (the claims quantify over the RNG's possible outputs); `now` is the
clock value `Node::new` would read. -/
def Graph.add (g0 : Graph) (d : MetricFn) (vec : Vec) (ext_id : Nat)
    (m ef lvl now : Nat) : Graph :=
  match extLookup g0.by_ext ext_id with
  | some _ => ((g0.delete ext_id).1).addNode d vec ext_id m ef lvl now
  | none => g0.addNode d vec ext_id m ef lvl now

/-! ### knn -/

def Graph.knn (g : Graph) (d : MetricFn) (q : Vec) (k ef : Nat) : List (Nat × ℚ) :=
  if g.nodes.isEmpty || k == 0 then []
  else
    let ep? := match g.entry with
      | some e => if g.is_valid_nid e then some e else g.pick_entry
      | none => g.pick_entry
    match ep? with
    | none => []
    | some ep0 =>
      let ep := (revRange 1 g.max_level).foldl (fun e l => g.greedy_idx d e q l) ep0
      let cand := g.ef_search_idx d ep q (max ef k) 0
      let cand := sortByD (fun a b => decide (a.2 ≤ b.2)) cand
      (cand.take k).map (fun p => ((getNode g p.1).ext_id, p.2))

/-! ### touch / eviction / repair -/

def Graph.touch_many (g : Graph) (ids : List Nat) (now : Nat) : Graph :=
  ids.foldl (fun g eid =>
    match extLookup g.by_ext eid with
    | some nid =>
      if nid < g.nodes.length then
        if !(getNode g nid).deleted then
          setNode g nid { getNode g nid with last_hit := now }
        else g
      else g
    | none => g) g

/-- `while max_level > 0 && levels[max_level].is_empty()`; `max_level`
strictly decreases, so `max_level + 1` fuel suffices. -/
def Graph.repairLoop : Nat → Graph → Graph
  | 0, g => g
  | fuel + 1, g =>
    if 0 < g.max_level ∧ (g.levels.getD g.max_level []).isEmpty then
      Graph.repairLoop fuel
        { g with max_level := g.max_level - 1, levels := g.levels.dropLast }
    else g

def Graph.repair_after_mass_deletes (g : Graph) : Graph :=
  let g1 := Graph.repairLoop (g.max_level + 1) g
  if (g1.entry.map (fun e => g1.is_valid_nid e)).getD false then g1
  else { g1 with entry := g1.pick_entry }

/-- Body of the TTL sweep loop (`now − last_hit` is `saturating_sub`). -/
def Graph.ttlStep (ttl now : Nat) (st : Graph × Nat) (nid : Nat) : Graph × Nat :=
  let g := st.1
  if (getNode g nid).deleted then st
  else if ttl < now - (getNode g nid).last_hit then
    let ext := (getNode g nid).ext_id
    let r := g.delete ext
    (r.1, if r.2 then st.2 + 1 else st.2)
  else st

def Graph.evict_ttl (g0 : Graph) (ttl now : Nat) : Graph × (Nat × Nat) :=
  let st := (List.range g0.nodes.length).foldl (Graph.ttlStep ttl now) (g0, 0)
  (st.1.repair_after_mass_deletes, (st.2, 0))

/-- The LRU cap predicate of `evict_lru_until`. -/
def lruNeed (max_vecs max_bytes : Option Nat) (active bytes : Nat) : Bool :=
  (match max_vecs with | some mv => decide (mv < active) | none => false) ||
  (match max_bytes with | some mb => decide (mb < bytes) | none => false)

/-- Pop-loop of `evict_lru_until` over the (pre-sorted) heap contents; the
heap receives no pushes after construction, so popping the `Reverse`-heap is
traversing the entries in ascending `(last_hit, nid)` order. -/
def Graph.lruLoop (mv mb : Option Nat) : List (Nat × NodeId) → Graph × Nat → Graph × Nat
  | [], st => st
  | e :: rest, st =>
    let g := st.1
    if !(lruNeed mv mb g.active g.total_bytes) then st
    else if g.nodes.length ≤ e.2 then Graph.lruLoop mv mb rest st
    else
      let ext := (getNode g e.2).ext_id
      let r := g.delete ext
      Graph.lruLoop mv mb rest (r.1, if r.2 then st.2 + 1 else st.2)

def Graph.evict_lru_until (g0 : Graph) (max_vecs max_bytes : Option Nat) (_now : Nat) :
    Graph × (Nat × Nat) :=
  if !(lruNeed max_vecs max_bytes g0.active g0.total_bytes) then (g0, (0, 0))
  else
    let entries := (List.range g0.nodes.length).filterMap (fun nid =>
      if (getNode g0 nid).deleted then none else some ((getNode g0 nid).last_hit, nid))
    let heap := sortByD (fun a b =>
      decide (a.1 < b.1) || (a.1 == b.1 && decide (a.2 ≤ b.2))) entries
    let st := Graph.lruLoop max_vecs max_bytes heap (g0, 0)
    (st.1.repair_after_mass_deletes, (st.2, 0))

/-! ### sanitize -/

/-- Per-layer cleanup of `sanitize`: keep in-range, non-self, non-deleted
targets; sort; dedup. -/
def cleanLinks (nlen : Nat) (flags : List Bool) (nid : NodeId) (adj : List NodeId) :
    List NodeId :=
  rdedup (sortByD (fun a b => decide (a ≤ b))
    (adj.filter (fun x => decide (x < nlen) && x != nid && !(flags.getD x true))))

/-- Per-node pass of `sanitize`: returns the fixed node, the number of edges
dropped and the number of nodes fixed (0 or 1). -/
def sanitizeNode (nlen : Nat) (flags : List Bool) (nid : Nat) (n : Node) :
    Node × Nat × Nat :=
  let p := if n.links.isEmpty then ({ n with links := [[]] }, 1) else (n, 0)
  let cleaned := p.1.links.map (cleanLinks nlen flags nid)
  let ed := ((p.1.links.zip cleaned).map (fun q => q.1.length - q.2.length)).sum
  ({ p.1 with links := cleaned }, ed, p.2)

/-- `Graph::sanitize`. -/
def Graph.sanitize (g0 : Graph) : Graph × (Nat × Nat) :=
  let nlen := g0.nodes.length
  let flags := g0.nodes.map (·.deleted)
  let fixedL := ((List.range nlen).zip g0.nodes).map (fun p => sanitizeNode nlen flags p.1 p.2)
  let nodes1 := fixedL.map (·.1)
  let edges_dropped := (fixedL.map (fun p => p.2.1)).sum
  let nodes_fixed := (fixedL.map (fun p => p.2.2)).sum
  let max_level := (nodes1.map (fun n => n.links.length - 1)).foldl max 0
  let levels := ((List.range nlen).zip nodes1).foldl (fun lv (p : Nat × Node) =>
      if p.2.deleted then lv else
        let top := p.2.links.length - 1
        lv.set top (lv.getD top [] ++ [p.1])) (List.replicate (max_level + 1) [])
  let g := { g0 with nodes := nodes1, levels := levels, max_level := max_level }
  let g := { g with entry := g.pick_entry }
  let by_ext := ((List.range nlen).zip nodes1).foldl (fun be (p : Nat × Node) =>
      if p.2.deleted then be else extInsert be p.2.ext_id p.1) []
  let nodesB := nodes1.map (fun n => n.recompute_bytes.1)
  let g := { g with
    by_ext := by_ext
    active := (nodes1.filter (fun n => !n.deleted)).length
    nodes := nodesB
    total_bytes := (nodesB.map (·.bytes)).sum }
  (g, (edges_dropped, nodes_fixed))

/-! ### errors.rs and the `Hnsw` facade (lib.rs) -/

inductive VcalError where
  | DimensionMismatch (expected found : Nat)
  | EmptyIndex
  | Serialize (msg : String)
deriving DecidableEq, Repr

instance {ε α : Type _} [DecidableEq ε] [DecidableEq α] : DecidableEq (Except ε α)
  | Except.ok a, Except.ok b =>
    if h : a = b then isTrue (by rw [h]) else isFalse (by simp [h])
  | Except.error a, Except.error b =>
    if h : a = b then isTrue (by rw [h]) else isFalse (by simp [h])
  | Except.ok _, Except.error _ => isFalse (by simp)
  | Except.error _, Except.ok _ => isFalse (by simp)

structure Hnsw where
  dims : Nat
  m : Nat
  ef : Nat
  efc : Nat
  graph : Graph
deriving DecidableEq, Repr

/-- `HnswBuilder::default().dims(d).build()`: defaults `M = 16`,
`ef_search = 128`, `ef_construction = 200`. -/
def buildDefault (dims : Nat) : Hnsw :=
  { dims := dims, m := 16, ef := 128, efc := 200, graph := Graph.new }

/-- A builder invocation with explicit parameters, after the builder's
clamps (`m ≥ 2`, `ef ≥ 1`, `efc ≥ 1`). -/
def buildWith (dims m ef efc : Nat) : Hnsw :=
  { dims := dims, m := max m 2, ef := max ef 1, efc := max efc 1, graph := Graph.new }

/-- `Hnsw::search_with_ef`.  The metric is the facade's type parameter, the
`now` argument is the unix time read on the success path.  Returns the result
together with the graph after the `touch_many` side effect (the graph is
returned unchanged on the error paths). -/
def Hnsw.search_with_ef (h : Hnsw) (d : MetricFn) (q : Vec) (k ef now : Nat) :
    Except VcalError (List (Nat × ℚ)) × Graph :=
  if h.graph.nodes.isEmpty then (Except.error VcalError.EmptyIndex, h.graph)
  else if q.length ≠ h.dims then
    (Except.error (VcalError.DimensionMismatch h.dims q.length), h.graph)
  else
    let ef_eff := max ef (max k 1)
    let hits := h.graph.knn d q k ef_eff
    (Except.ok hits, h.graph.touch_many (hits.map (·.1)) now)

/-- `Hnsw::search` = `search_with_ef` with the index's default `ef`. -/
def Hnsw.search (h : Hnsw) (d : MetricFn) (q : Vec) (k now : Nat) :
    Except VcalError (List (Nat × ℚ)) × Graph :=
  h.search_with_ef d q k h.ef now

/-- `Hnsw::insert` (`lvl` is `draw_level`'s output, `now` the clock). -/
def Hnsw.insert (h : Hnsw) (d : MetricFn) (vec : Vec) (ext_id lvl now : Nat) :
    Except VcalError Hnsw :=
  if vec.length ≠ h.dims then
    Except.error (VcalError.DimensionMismatch h.dims vec.length)
  else Except.ok { h with graph := h.graph.add d vec ext_id h.m h.efc lvl now }

def Hnsw.delete (h : Hnsw) (ext_id : Nat) : Hnsw × Bool :=
  let r := h.graph.delete ext_id
  ({ h with graph := r.1 }, r.2)

def Hnsw.contains (h : Hnsw) (ext_id : Nat) : Bool := h.graph.contains_ext ext_id

def Hnsw.len (h : Hnsw) : Nat := h.graph.stats.1

def Hnsw.total_bytes (h : Hnsw) : Nat := h.graph.stats.2

def Hnsw.evict_ttl (h : Hnsw) (ttl now : Nat) : Hnsw × (Nat × Nat) :=
  let r := h.graph.evict_ttl ttl now
  ({ h with graph := r.1 }, r.2)

def Hnsw.evict_lru_until (h : Hnsw) (max_vecs max_bytes : Option Nat) (now : Nat) :
    Hnsw × (Nat × Nat) :=
  let r := h.graph.evict_lru_until max_vecs max_bytes now
  ({ h with graph := r.1 }, r.2)

/-! ### serialize.rs

The JSON codec is a `serde_json` round-trip of the `SerIndex` record; the
model composes `to_bytes`/`from_slice` structurally on that record. -/

structure SerNode where
  ext_id : Nat
  vec : Vec
  links : List (List NodeId)
  last_hit : Option Nat
deriving DecidableEq, Repr

structure SerGraph where
  nodes : List SerNode
deriving DecidableEq, Repr

/-- The snapshot record. Note: the source's `SerIndex` carries no `efc`
field. -/
structure SerIndex where
  dims : Nat
  m : Nat
  ef : Nat
  graph : SerGraph
deriving DecidableEq, Repr

/-- `to_bytes`: serialize, skipping logically deleted nodes. -/
def to_bytes (h : Hnsw) : SerIndex :=
  { dims := h.dims, m := h.m, ef := h.ef,
    graph := ⟨(h.graph.nodes.filter (fun n => !n.deleted)).map (fun n =>
      { ext_id := n.ext_id, vec := n.vec, links := n.links, last_hit := some n.last_hit })⟩ }

/-- Node reconstruction inside `from_slice` (`now` models the clock read by
`Node::new`, overwritten whenever the snapshot carries `last_hit`). -/
def convNode (now : Nat) (sn : SerNode) : Node :=
  let node := Node.new sn.ext_id (sn.links.length - 1) sn.vec now
  let node := { node with links := sn.links }
  let node := match sn.last_hit with
    | some ts => { node with last_hit := ts }
    | none => node
  node.recompute_bytes.1

/-- `from_slice` (the free function): rebuild a graph from the snapshot with
densely re-assigned node ids.  The source's `Hnsw` literal omits the `efc`
field (the struct requires it); `efc` is Modelled from the spec here:
"Missing `efc` falls back to `max(ef, 1)`". -/
def from_slice (snap : SerIndex) (now : Nat) : Except VcalError Hnsw :=
  match snap.graph.nodes.find? (fun sn => sn.vec.length != snap.dims) with
  | some sn => Except.error (VcalError.DimensionMismatch snap.dims sn.vec.length)
  | none =>
    let max_level := (snap.graph.nodes.map (fun sn => sn.links.length - 1)).foldl max 0
    let ns := snap.graph.nodes.map (convNode now)
    let enum := (List.range ns.length).zip ns
    let levels0 := Graph.new.levels ++ List.replicate (max_level + 1 - Graph.new.levels.length) []
    let levels := enum.foldl (fun lv p =>
        let level := p.2.links.length - 1
        lv.set level (lv.getD level [] ++ [p.1])) levels0
    let by_ext := enum.foldl (fun be p => extInsert be p.2.ext_id p.1) []
    let entry := if decide (max_level < levels.length) && !(levels.getD max_level []).isEmpty then
        (levels.getD max_level []).head?
      else if ¬ns.isEmpty then some 0 else none
    Except.ok
      { dims := snap.dims, m := snap.m, ef := snap.ef, efc := max snap.ef 1,
        graph := { nodes := ns, levels := levels, max_level := max_level,
                   entry := entry, by_ext := by_ext, active := ns.length,
                   total_bytes := (ns.map (·.bytes)).sum } }

/-- `Hnsw::from_slice`: deserialize then auto-repair with `sanitize`. -/
def Hnsw.from_slice (snap : SerIndex) (now : Nat) : Except VcalError Hnsw :=
  match VCal.from_slice snap now with
  | Except.error e => Except.error e
  | Except.ok h => Except.ok { h with graph := h.graph.sanitize.1 }

/-! ### rand_level.rs

The sampler is a function of the stream of uniform draws (modelled as a list;
an empty remainder behaves as a failed draw, which is conservative because
the claims about it are settled on finite prefixes). -/

open Classical in
/-- Count how many leading draws fall below the continuation threshold `t`. -/
noncomputable def levelFromDraws (t : ℝ) : List ℝ → Nat
  | [] => 0
  | u :: us => if u < t then levelFromDraws t us + 1 else 0

/-- `draw_level` as implemented: `lambda = 1 / m.ln()` and the loop continues
while `u < (-lambda).exp()`, i.e. the continuation threshold is
`exp (−(1 / ln m))`. -/
noncomputable def draw_level (m : ℝ) (us : List ℝ) : Nat :=
  levelFromDraws (Real.exp (-(1 / Real.log m))) us

/-- The sampler the spec describes: continue while `u < e^(−1/λ)` with
`λ = 1 / ln M`, i.e. threshold `exp (−ln m) = 1/m`. -/
noncomputable def draw_level_spec (m : ℝ) (us : List ℝ) : Nat :=
  levelFromDraws (Real.exp (-Real.log m)) us

/-! ### Invariant I3 / P1 -/

/-- Decidable checker for invariant I3/P1: for every active node, every layer
of its adjacency holds only in-range, non-deleted, non-self targets and has
no duplicates. -/
def i3Holds (g : Graph) : Bool :=
  (List.range g.nodes.length).all (fun nid =>
    (getNode g nid).deleted ||
    (getNode g nid).links.all (fun adj =>
      adj.all (fun x =>
        decide (x < g.nodes.length) && !(getNode g x).deleted && x != nid) &&
      decide adj.Nodup))

/-- Invariant I3/P1 as a proposition. -/
def I3 (g : Graph) : Prop :=
  ∀ nid, nid < g.nodes.length → (getNode g nid).deleted = false →
    ∀ adj ∈ (getNode g nid).links,
      adj.Nodup ∧ ∀ x ∈ adj,
        x < g.nodes.length ∧ (getNode g x).deleted = false ∧ x ≠ nid

/-- The self-free / duplicate-free fragment of I3 (what survives deletion). -/
def SelfDupOk (g : Graph) : Prop :=
  ∀ nid, nid < g.nodes.length → (getNode g nid).deleted = false →
    ∀ adj ∈ (getNode g nid).links, adj.Nodup ∧ nid ∉ adj

/-- One adjacency list's share of the invariant fragment that survives
deletions: duplicate-free, and every target in-range and non-self (the target
may be a tombstone). -/
def LinkOk (len nid : Nat) (adj : List NodeId) : Prop :=
  adj.Nodup ∧ ∀ x ∈ adj, x < len ∧ x ≠ nid

/-- The fragment of I3/P1 that every mutating operation preserves: for every
active node, every layer's adjacency is `LinkOk` (what deletion does NOT
preserve is the remaining fragment, that targets are active). -/
def I3weak (g : Graph) : Prop :=
  ∀ nid, nid < g.nodes.length → (getNode g nid).deleted = false →
    ∀ adj ∈ (getNode g nid).links, LinkOk g.nodes.length nid adj

/-- Well-formedness of the external-id map used by the eviction sweeps: every
active node's external id resolves back to that node. -/
def ExtOk (g : Graph) : Prop :=
  ∀ i, i < g.nodes.length → (getNode g i).deleted = false →
    extLookup g.by_ext (getNode g i).ext_id = some i

/-! ### Concrete metric instances and execution traces used by the theorems

The `Metric` trait is pluggable; concrete traces instantiate it with the
`Dot` metric evaluated in exact integer arithmetic (`numDot`), which agrees
with `dotDistance` on vectors whose components are integers (all trace
vectors below), while producing rationals in a normal form the kernel can
evaluate. -/

def intToRat (n : ℤ) : ℚ := ⟨n, 1, one_ne_zero, Nat.coprime_one_right _⟩

/-- `Dot` distance `1 − a·b` computed in `ℤ` (components' numerators; equal
to the components themselves on integer vectors). -/
def numDot (a b : Vec) : ℚ :=
  intToRat (1 - ((a.zip b).map (fun p => p.1.num * p.2.num)).sum)

/-- The rational 1/2, in reduced normal form. -/
def half : ℚ := ⟨1, 2, by decide, Nat.coprime_one_left 2⟩

/-- Extract the `Ok` payload (all trace inserts are well-dimensioned). -/
def okOrH (x : Except VcalError Hnsw) (dflt : Hnsw) : Hnsw :=
  match x with
  | Except.ok h => h
  | Except.error _ => dflt

/-- C1 trace: dims 1, `M = 2`, `efc = 1`, all levels drawn 0; inserts
`[8]↦100, [1]↦101, [7]↦102, [9]↦103`.  Nodes 1 and 2 link to node 0, but
node 0 links only to node 3 (back-edges pruned), so edge symmetry is broken. -/
def gTrace1 : Graph :=
  ((((Graph.new.add numDot [8] 100 2 1 0 0).add numDot [1] 101 2 1 0 1).add
    numDot [7] 102 2 1 0 2).add numDot [9] 103 2 1 0 3)

/-- C6 trace: dims 1, `M = 2`, `efc = 1`, levels 0; inserts
`[3]↦10, [4]↦11, [5]↦12` then `delete 10`, leaving a tombstone at slot 0
while nodes 1,2 keep links `[2]` resp. `[1]`. -/
def gTrace6 : Graph :=
  ((((Graph.new.add numDot [3] 10 2 1 0 0).add numDot [4] 11 2 1 0 1).add
    numDot [5] 12 2 1 0 2).delete 10).1

def hTrace6 : Hnsw := { dims := 1, m := 2, ef := 1, efc := 1, graph := gTrace6 }

/-- The index `hTrace6` round-tripped through the snapshot codec. -/
def hTrace6RT : Hnsw := okOrH (Hnsw.from_slice (to_bytes hTrace6) 0) hTrace6

/-- A fresh one-dimensional index (builder with `m = 2`, `ef = 1`, `efc = 1`). -/
def hDims1 : Hnsw := { dims := 1, m := 2, ef := 1, efc := 1, graph := Graph.new }

/-- C4 trace: `insert([1], 5)` on a fresh index … -/
def hC4one : Hnsw := okOrH (hDims1.insert numDot [1] 5 0 0) hDims1

/-- … then the upsert `insert([2], 5)` … -/
def hC4two : Hnsw := okOrH (hC4one.insert numDot [2] 5 0 1) hC4one

/-- C8 trace: ten inserts `[i+1] ↦ 200+i` with `last_hit = i+1`. -/
def gTrace8 : Graph := (List.range 10).foldl
  (fun (g : Graph) (i : Nat) => g.add numDot [intToRat (i + 1)] (200 + i) 2 1 0 (i + 1))
  Graph.new

/-- C10 witness trace: one insert then delete — the arena keeps the
tombstoned slot. -/
def gAllDeleted : Graph := ((Graph.new.add numDot [1] 1 2 1 0 0).delete 1).1

def hAllDeleted : Hnsw := { dims := 1, m := 2, ef := 1, efc := 1, graph := gAllDeleted }

/-- C9 witness trace: one insert with `last_hit = 42`. -/
def gTouch1 : Graph := Graph.new.add numDot [1] 1 2 1 0 42

/-- S5 trace: default builder at dims 8, insert `[1/2; 8] ↦ 7` (level 0). -/
def hS5 : Hnsw :=
  okOrH ((buildDefault 8).insert numDot (List.replicate 8 half) 7 0 0) (buildDefault 8)

def hS5RT : Hnsw := okOrH (Hnsw.from_slice (to_bytes hS5) 0) hS5

/-- C5 trace: inserts `[1]↦7, [2]↦8` then the upsert `[3]↦7`. -/
def gTrace5 : Graph :=
  ((Graph.new.add numDot [1] 7 2 1 0 0).add numDot [2] 8 2 1 0 0).add numDot [3] 7 2 1 0 1

/-! ## Lemma toolkit -/

theorem foldl_inv {α : Type _} {β : Type _} (P : α → Prop) (f : α → β → α)
    (l : List β) (init : α) (h0 : P init) (hs : ∀ a b, P a → P (f a b)) :
    P (l.foldl f init) := by
  induction l generalizing init with
  | nil => exact h0
  | cons x xs ih => exact ih (f init x) (hs init x h0)

theorem nodes_length_setNode (g : Graph) (i : NodeId) (n : Node) :
    (setNode g i n).nodes.length = g.nodes.length := by
  simp [setNode]

theorem getNode_setNode_self {g : Graph} {i : NodeId} (n : Node) (h : i < g.nodes.length) :
    getNode (setNode g i n) i = n := by
  simp [getNode, setNode, List.getD_eq_getElem?_getD, List.getElem?_set_self h]

theorem getNode_setNode_ne {g : Graph} {i j : NodeId} (n : Node) (h : i ≠ j) :
    getNode (setNode g i n) j = getNode g j := by
  simp [getNode, setNode, List.getD_eq_getElem?_getD, List.getElem?_set_ne h]

theorem setNode_of_le {g : Graph} {i : NodeId} (n : Node) (h : g.nodes.length ≤ i) :
    setNode g i n = g := by
  simp [setNode, List.set_eq_of_length_le h]

/-! ### `by_ext` map lemmas -/

theorem find?_filter_ne (m : List (Nat × NodeId)) {k k' : Nat} (h : k' ≠ k) :
    (m.filter (fun p => p.1 != k)).find? (fun p => p.1 == k') =
      m.find? (fun p => p.1 == k') := by
  induction m with
  | nil => rfl
  | cons p rest ih =>
    by_cases h1 : p.1 = k
    · have hpk : (p.1 != k) = false := by simp [h1]
      have hpk' : (p.1 == k') = false := by
        simp only [beq_eq_false_iff_ne]
        omega
      rw [List.filter_cons, hpk, if_neg (by simp), List.find?_cons_of_neg _ (by simp [hpk']), ih]
    · have hpk : (p.1 != k) = true := by simp [h1]
      by_cases h2 : p.1 = k'
      · rw [List.filter_cons, hpk, if_pos rfl,
          List.find?_cons_of_pos _ (by simp [h2]), List.find?_cons_of_pos _ (by simp [h2])]
      · rw [List.filter_cons, hpk, if_pos rfl,
          List.find?_cons_of_neg _ (by simp [h2]), List.find?_cons_of_neg _ (by simp [h2]), ih]

theorem extLookup_extRemove_self (m : List (Nat × NodeId)) (k : Nat) :
    extLookup (extRemove m k) k = none := by
  have : (m.filter (fun p => p.1 != k)).find? (fun p => p.1 == k) = none := by
    rw [List.find?_eq_none]
    intro x hx
    have := (List.mem_filter.mp hx).2
    simpa using this
  simp [extLookup, extRemove, this]

theorem extLookup_extRemove_ne (m : List (Nat × NodeId)) {k k' : Nat} (h : k' ≠ k) :
    extLookup (extRemove m k) k' = extLookup m k' := by
  simp [extLookup, extRemove, find?_filter_ne m h]

theorem extLookup_extInsert_self (m : List (Nat × NodeId)) (k : Nat) (v : NodeId) :
    extLookup (extInsert m k v) k = some v := by
  simp [extInsert, extLookup, List.find?_cons_of_pos]

theorem extLookup_cons_ne {p : Nat × NodeId} (m : List (Nat × NodeId)) {k : Nat}
    (h : (p.1 == k) = false) : extLookup (p :: m) k = extLookup m k := by
  unfold extLookup
  rw [List.find?_cons_of_neg _ (by simp [h])]

theorem extLookup_extInsert_ne (m : List (Nat × NodeId)) {k k' : Nat} (v : NodeId)
    (h : k' ≠ k) :
    extLookup (extInsert m k v) k' = extLookup m k' := by
  have h1 : (((k, v) : Nat × NodeId).1 == k') = false := by
    simp only [beq_eq_false_iff_ne]
    omega
  have e : extInsert m k v = (k, v) :: extRemove m k := rfl
  rw [e, extLookup_cons_ne _ h1, extLookup_extRemove_ne m h]

/-! ### Core-preservation machinery

The link-surgery phases of the mutating operations (`connect`, pruning, the
unlink phase of `delete`) touch only `links` and `bytes` of nodes, and the
`total_bytes`/`levels`/`entry` registry fields.  `nodeCore`/`CoreEq` capture
what they preserve. -/

def nodeCore (n : Node) : Nat × Vec × Nat × Bool := (n.ext_id, n.vec, n.last_hit, n.deleted)

/-- `g'` agrees with `g` on arena length, every node's core fields, the
external-id map and the active counter. -/
def CoreEq (g g' : Graph) : Prop :=
  g'.nodes.length = g.nodes.length ∧
  (∀ j, nodeCore (getNode g' j) = nodeCore (getNode g j)) ∧
  g'.by_ext = g.by_ext ∧ g'.active = g.active

theorem CoreEq.refl (g : Graph) : CoreEq g g := ⟨rfl, fun _ => rfl, rfl, rfl⟩

theorem CoreEq.trans {g1 g2 g3 : Graph} (h1 : CoreEq g1 g2) (h2 : CoreEq g2 g3) :
    CoreEq g1 g3 :=
  ⟨h2.1.trans h1.1, fun j => (h2.2.1 j).trans (h1.2.1 j), h2.2.2.1.trans h1.2.2.1,
   h2.2.2.2.trans h1.2.2.2⟩

theorem coreEq_setNode (g : Graph) (i : NodeId) (n : Node)
    (h : nodeCore n = nodeCore (getNode g i)) : CoreEq g (setNode g i n) := by
  refine ⟨nodes_length_setNode g i n, fun j => ?_, rfl, rfl⟩
  by_cases hij : i = j
  · subst hij
    by_cases hlen : i < g.nodes.length
    · rw [getNode_setNode_self n hlen, h]
    · rw [setNode_of_le n (Nat.le_of_not_lt hlen)]
  · rw [getNode_setNode_ne n hij]

theorem nodeCore_recompute (n : Node) : nodeCore n.recompute_bytes.1 = nodeCore n := rfl

theorem nodeCore_setLayer (n : Node) (l : Nat) (adj : List NodeId) :
    nodeCore (setLayer n l adj) = nodeCore n := rfl

/-- Folding a step that is core-preserving over any list is core-preserving. -/
theorem foldl_coreEq {β : Type _} (f : Graph × Int → β → Graph × Int)
    (hf : ∀ st b, CoreEq st.1 (f st b).1) (l : List β) (st : Graph × Int) :
    CoreEq st.1 ((l.foldl f st).1) := by
  induction l generalizing st with
  | nil => exact CoreEq.refl _
  | cons x xs ih => exact (hf st x).trans (ih (f st x))

theorem deleteNb_coreEq (nid : NodeId) (l : Nat) (st : Graph × Int) (nb : NodeId) :
    CoreEq st.1 (Graph.deleteNb nid l st nb).1 := by
  simp only [Graph.deleteNb]
  split
  · exact CoreEq.refl _
  · split
    · exact CoreEq.refl _
    · split
      · exact CoreEq.refl _
      · exact ((coreEq_setNode _ nb _ (nodeCore_recompute _)).trans
          (coreEq_setNode _ nb _ (nodeCore_setLayer _ _ _))).trans
          (coreEq_setNode _ nb _ (nodeCore_recompute _))

theorem deleteLayer_coreEq (nid : NodeId) (st : Graph × Int) (l : Nat) :
    CoreEq st.1 (Graph.deleteLayer nid st l).1 := by
  simp only [Graph.deleteLayer]
  exact (coreEq_setNode _ nid _ (nodeCore_setLayer _ _ _)).trans
    (foldl_coreEq _ (deleteNb_coreEq nid l) _ _)

theorem deleteUnlink_coreEq (g : Graph) (nid : NodeId) :
    CoreEq g (g.deleteUnlink nid).1 := by
  simp only [Graph.deleteUnlink]
  exact ((coreEq_setNode _ nid _ (nodeCore_recompute _)).trans
    (foldl_coreEq _ (fun st b => deleteLayer_coreEq nid st b) _ _)).trans
    (coreEq_setNode _ nid _ (nodeCore_recompute _))

theorem getNode_congr {g1 g2 : Graph} (h : g1.nodes = g2.nodes) (j : NodeId) :
    getNode g1 j = getNode g2 j := by
  simp [getNode, h]

theorem applyDelta_nodes (g : Graph) (dl : Int) : (applyDelta g dl).nodes = g.nodes := by
  unfold applyDelta
  split <;> rfl

theorem applyDelta_by_ext (g : Graph) (dl : Int) : (applyDelta g dl).by_ext = g.by_ext := by
  unfold applyDelta
  split <;> rfl

theorem applyDelta_active (g : Graph) (dl : Int) : (applyDelta g dl).active = g.active := by
  unfold applyDelta
  split <;> rfl

theorem deleteRegistry_nodes (g : Graph) (nid : NodeId) :
    (g.deleteRegistry nid).nodes = g.nodes := by
  simp only [Graph.deleteRegistry]
  split <;> rfl

theorem deleteRegistry_by_ext (g : Graph) (nid : NodeId) :
    (g.deleteRegistry nid).by_ext = g.by_ext := by
  simp only [Graph.deleteRegistry]
  split <;> rfl

theorem deleteRegistry_active (g : Graph) (nid : NodeId) :
    (g.deleteRegistry nid).active = g.active - 1 := by
  simp only [Graph.deleteRegistry]
  split <;> rfl

theorem deleteMark_length (g : Graph) (nid : NodeId) :
    (g.deleteMark nid).1.nodes.length = g.nodes.length := by
  simp only [Graph.deleteMark]
  simp [nodes_length_setNode]

theorem deleteMark_by_ext (g : Graph) (nid : NodeId) :
    (g.deleteMark nid).1.by_ext = g.by_ext := rfl

theorem deleteMark_active (g : Graph) (nid : NodeId) :
    (g.deleteMark nid).1.active = g.active := rfl

theorem deleteMark_getNode_ne (g : Graph) {nid j : NodeId} (h : j ≠ nid) :
    getNode (g.deleteMark nid).1 j = getNode g j := by
  simp only [Graph.deleteMark]
  rw [getNode_setNode_ne _ (Ne.symm h), getNode_setNode_ne _ (Ne.symm h),
    getNode_setNode_ne _ (Ne.symm h)]

theorem deleteMark_self (g : Graph) {nid : NodeId} (h : nid < g.nodes.length) :
    (getNode (g.deleteMark nid).1 nid).deleted = true ∧
    (getNode (g.deleteMark nid).1 nid).vec = [] ∧
    (getNode (g.deleteMark nid).1 nid).ext_id = (getNode g nid).ext_id ∧
    (getNode (g.deleteMark nid).1 nid).last_hit = (getNode g nid).last_hit := by
  simp only [Graph.deleteMark]
  rw [getNode_setNode_self _ (by simpa [nodes_length_setNode] using h),
    getNode_setNode_self _ (by simpa [nodes_length_setNode] using h),
    getNode_setNode_self _ (by simpa [nodes_length_setNode] using h)]
  exact ⟨rfl, rfl, rfl, rfl⟩

/-- The early-return paths of `Graph::delete`. -/
theorem delete_none {g : Graph} {e : Nat} (h : extLookup g.by_ext e = none) :
    g.delete e = (g, false) := by
  simp [Graph.delete, h]

theorem delete_fail_some {g : Graph} {e : Nat} {nid : NodeId}
    (hl : extLookup g.by_ext e = some nid)
    (hfail : g.nodes.length ≤ nid ∨ (getNode g nid).deleted = true) :
    g.delete e = ({ g with by_ext := extRemove g.by_ext e }, false) := by
  simp only [Graph.delete, hl]
  split
  · rfl
  next h1 =>
    split
    · rfl
    next h2 =>
      exfalso
      rcases hfail with hf | hf
      · exact h1 hf
      · exact h2 hf

/-- Full effect of a successful `Graph::delete`. -/
theorem delete_success {g : Graph} {e : Nat} {nid : NodeId}
    (hl : extLookup g.by_ext e = some nid) (hn : nid < g.nodes.length)
    (hd : (getNode g nid).deleted = false) :
    (g.delete e).2 = true ∧
    (g.delete e).1.nodes.length = g.nodes.length ∧
    (getNode (g.delete e).1 nid).deleted = true ∧
    (getNode (g.delete e).1 nid).vec = [] ∧
    (getNode (g.delete e).1 nid).ext_id = (getNode g nid).ext_id ∧
    (getNode (g.delete e).1 nid).last_hit = (getNode g nid).last_hit ∧
    (∀ j, j ≠ nid → nodeCore (getNode (g.delete e).1 j) = nodeCore (getNode g j)) ∧
    (g.delete e).1.by_ext = extRemove g.by_ext e ∧
    (g.delete e).1.active = g.active - 1 := by
  have hU : CoreEq ({ g with by_ext := extRemove g.by_ext e } : Graph)
      (({ g with by_ext := extRemove g.by_ext e } : Graph).deleteUnlink nid).1 :=
    deleteUnlink_coreEq _ nid
  set gB : Graph := { g with by_ext := extRemove g.by_ext e } with hgB
  set U : Graph × Int := gB.deleteUnlink nid with hUdef
  set M : Graph × Int := U.1.deleteMark nid with hMdef
  set R : Graph := M.1.deleteRegistry nid with hRdef
  have hres : g.delete e = (applyDelta R (U.2 + M.2), true) := by
    simp only [Graph.delete, hl]
    split
    next h1 => exact absurd (h1 : g.nodes.length ≤ nid) (Nat.not_le.mpr hn)
    next h1 =>
      split
      next h2 =>
        have hgt : (getNode g nid).deleted = true := h2
        rw [hd] at hgt
        exact absurd hgt (by simp)
      next _ => rfl
  have hUlen : U.1.nodes.length = g.nodes.length := by rw [hU.1]
  have hnU : nid < U.1.nodes.length := by rw [hUlen]; exact hn
  have hMlen : M.1.nodes.length = g.nodes.length := by
    rw [hMdef, deleteMark_length, hUlen]
  have hMs := deleteMark_self U.1 hnU
  have hfinal_nodes : (g.delete e).1.nodes = M.1.nodes := by
    rw [hres]
    show (applyDelta R (U.2 + M.2)).nodes = M.1.nodes
    rw [applyDelta_nodes, hRdef, deleteRegistry_nodes]
  have hget : ∀ j, getNode (g.delete e).1 j = getNode M.1 j :=
    getNode_congr hfinal_nodes
  refine ⟨by rw [hres], ?_, ?_, ?_, ?_, ?_, ?_, ?_, ?_⟩
  · rw [hfinal_nodes, hMlen]
  · rw [hget]; exact hMs.1
  · rw [hget]; exact hMs.2.1
  · rw [hget, hMs.2.2.1]
    have := congrArg (fun p => p.1) (hU.2.1 nid)
    simpa [nodeCore] using this
  · rw [hget, hMs.2.2.2]
    have := congrArg (fun p => p.2.2.1) (hU.2.1 nid)
    simpa [nodeCore] using this
  · intro j hj
    rw [hget, hMdef, deleteMark_getNode_ne U.1 hj]
    exact hU.2.1 j
  · rw [hres]
    show (applyDelta R (U.2 + M.2)).by_ext = extRemove g.by_ext e
    rw [applyDelta_by_ext, hRdef, deleteRegistry_by_ext, hMdef, deleteMark_by_ext, hU.2.2.1]
  · rw [hres]
    show (applyDelta R (U.2 + M.2)).active = g.active - 1
    rw [applyDelta_active, hRdef, deleteRegistry_active, hMdef, deleteMark_active, hU.2.2.2]

/-! ### Core preservation through `connect` and the connect phase of `add` -/

theorem nodeCore_ensureLayer (n : Node) (layer : Nat) :
    nodeCore (n.ensureLayer layer) = nodeCore n := by
  unfold Node.ensureLayer
  split <;> rfl

theorem applyDelta_coreEq (g : Graph) (dl : Int) : CoreEq g (applyDelta g dl) :=
  ⟨congrArg List.length (applyDelta_nodes g dl),
   fun j => congrArg nodeCore (getNode_congr (applyDelta_nodes g dl) j),
   applyDelta_by_ext g dl, applyDelta_active g dl⟩

theorem foldl_coreEq_g {β : Type _} (f : Graph → β → Graph)
    (hf : ∀ g b, CoreEq g (f g b)) (l : List β) (g : Graph) :
    CoreEq g (l.foldl f g) := by
  induction l generalizing g with
  | nil => exact CoreEq.refl _
  | cons x xs ih => exact (hf g x).trans (ih (f g x))

theorem prune_coreEq (g : Graph) (d : MetricFn) (nid layer m : Nat) :
    CoreEq g (g.prune_degree_hnsw d nid layer m) := by
  simp only [Graph.prune_degree_hnsw]
  split
  · exact CoreEq.refl _
  · exact coreEq_setNode _ nid _ (nodeCore_setLayer _ _ _)

theorem connectBack_coreEq (d : MetricFn) (nid layer m : Nat) (st : Graph × Int)
    (s : NodeId) : CoreEq st.1 (Graph.connectBack d nid layer m st s).1 := by
  simp only [Graph.connectBack]
  exact (((coreEq_setNode _ s _ (nodeCore_recompute _)).trans
    (coreEq_setNode _ s _ (nodeCore_setLayer _ _ _))).trans
    (prune_coreEq _ d s layer m)).trans
    (coreEq_setNode _ s _ (nodeCore_recompute _))

theorem coreEq_of_fields {g g' : Graph} (hn : g'.nodes = g.nodes)
    (hb : g'.by_ext = g.by_ext) (ha : g'.active = g.active) : CoreEq g g' :=
  ⟨congrArg List.length hn, fun j => congrArg nodeCore (getNode_congr hn j), hb, ha⟩

theorem connect_coreEq (g : Graph) (d : MetricFn) (nid : NodeId) (neigh : List NodeId)
    (m layer : Nat) : CoreEq g (g.connect d nid neigh m layer) := by
  simp only [Graph.connect]
  exact (((((((coreEq_setNode _ nid _ (nodeCore_ensureLayer _ _)).trans
    (foldl_coreEq_g _ (fun g s => coreEq_setNode g s _ (nodeCore_ensureLayer _ _)) _ _)).trans
    (coreEq_setNode _ nid _ (nodeCore_recompute _))).trans
    (coreEq_setNode _ nid _ (nodeCore_setLayer _ _ _))).trans
    (coreEq_setNode _ nid _ (nodeCore_recompute _))).trans
    (foldl_coreEq _ (connectBack_coreEq d nid layer m) _ _)).trans
    (prune_coreEq _ d nid layer m)).trans
    (applyDelta_coreEq _ _)

theorem addLayer_coreEq (d : MetricFn) (node_id : NodeId) (m ef entry : Nat)
    (g : Graph) (l : Nat) : CoreEq g (Graph.addLayer d node_id m ef entry g l) := by
  simp only [Graph.addLayer]
  exact connect_coreEq _ d node_id _ m l

theorem addFinish_coreEq (g0 : Graph) (d : MetricFn) (node_id : NodeId)
    (m ef entry lvl old_max : Nat) :
    CoreEq g0 (g0.addFinish d node_id m ef entry lvl old_max) := by
  simp only [Graph.addFinish]
  set F := (revRange 0 lvl).foldl (Graph.addLayer d node_id m ef entry) g0 with hF
  refine (foldl_coreEq_g _ (fun g l => addLayer_coreEq d node_id m ef entry g l)
    (revRange 0 lvl) g0).trans ?_
  set G1 := if F.entry.isNone then { F with entry := some node_id } else F with hG1
  have h1 : G1.nodes = F.nodes ∧ G1.by_ext = F.by_ext ∧ G1.active = F.active := by
    rw [hG1]
    split <;> exact ⟨rfl, rfl, rfl⟩
  set G2 := if old_max < lvl then { G1 with max_level := lvl } else G1 with hG2
  have h2 : G2.nodes = G1.nodes ∧ G2.by_ext = G1.by_ext ∧ G2.active = G1.active := by
    rw [hG2]
    split <;> exact ⟨rfl, rfl, rfl⟩
  exact coreEq_of_fields (by rw [show _ = G2.nodes from rfl, h2.1, h1.1])
    (by rw [show _ = G2.by_ext from rfl, h2.2.1, h1.2.1])
    (by rw [show _ = G2.active from rfl, h2.2.2, h1.2.2])

theorem getD_out_of_range {α : Type _} (l : List α) {j : Nat} (h : l.length ≤ j) (d : α) :
    l.getD j d = d := by
  rw [List.getD_eq_getElem?_getD, List.getElem?_eq_none h]
  rfl

theorem addPadPush_facts (g1 : Graph) (e lvl now : Nat) (v : Vec) :
    (addPadPush g1 e lvl now v).nodes.length = g1.nodes.length + 1 ∧
    getNode (addPadPush g1 e lvl now v) g1.nodes.length = Node.new e lvl v now ∧
    (∀ j, j ≠ g1.nodes.length →
      getNode (addPadPush g1 e lvl now v) j = getNode g1 j) ∧
    (addPadPush g1 e lvl now v).by_ext = extInsert g1.by_ext e g1.nodes.length ∧
    (addPadPush g1 e lvl now v).active = g1.active + 1 := by
  simp only [addPadPush]
  set gPad := if g1.max_level < lvl then
      { g1 with levels := g1.levels ++ List.replicate (lvl - g1.max_level) [] } else g1
    with hPad
  have hfacts : gPad.nodes = g1.nodes ∧ gPad.by_ext = g1.by_ext ∧ gPad.active = g1.active := by
    rw [hPad]
    split <;> exact ⟨rfl, rfl, rfl⟩
  refine ⟨?_, ?_, ?_, ?_, ?_⟩
  · show (gPad.nodes ++ [Node.new e lvl v now]).length = g1.nodes.length + 1
    simp [hfacts.1]
  · show (gPad.nodes ++ [Node.new e lvl v now]).getD g1.nodes.length default = _
    rw [hfacts.1, List.getD_eq_getElem?_getD, List.getElem?_concat_length]
    rfl
  · intro j hj
    show (gPad.nodes ++ [Node.new e lvl v now]).getD j default = getNode g1 j
    rcases Nat.lt_or_ge j g1.nodes.length with hlt | hge
    · rw [List.getD_append _ _ _ _ (by rw [hfacts.1]; exact hlt), hfacts.1]
      rfl
    · have hgt : g1.nodes.length < j := Nat.lt_of_le_of_ne hge (Ne.symm hj)
      rw [getD_out_of_range _ (by simp [hfacts.1]; omega), getNode,
        getD_out_of_range _ (Nat.le_of_lt hgt)]
  · show extInsert gPad.by_ext e g1.nodes.length = _
    rw [hfacts.2.1]
  · show gPad.active + 1 = g1.active + 1
    rw [hfacts.2.2]

/-- Effect of `addNode` on arena, external-id map and counters: the new node
(core `(e, v, now, false)`) sits at the old arena length, everything else is
core-preserved. -/
theorem addNode_effect (g1 : Graph) (d : MetricFn) (v : Vec) (e m ef lvl now : Nat) :
    (g1.addNode d v e m ef lvl now).nodes.length = g1.nodes.length + 1 ∧
    nodeCore (getNode (g1.addNode d v e m ef lvl now) g1.nodes.length) = (e, v, now, false) ∧
    (∀ j, j ≠ g1.nodes.length →
      nodeCore (getNode (g1.addNode d v e m ef lvl now) j) = nodeCore (getNode g1 j)) ∧
    (g1.addNode d v e m ef lvl now).by_ext = extInsert g1.by_ext e g1.nodes.length ∧
    (g1.addNode d v e m ef lvl now).active = g1.active + 1 := by
  simp only [Graph.addNode]
  have hP := addPadPush_facts g1 e lvl now v
  refine ⟨?_, ?_, ?_, ?_, ?_⟩
  · exact ((addFinish_coreEq _ d _ m ef _ lvl _).1).trans hP.1
  · exact ((addFinish_coreEq _ d _ m ef _ lvl _).2.1 g1.nodes.length).trans
      (by rw [hP.2.1]; rfl)
  · exact fun j hj => ((addFinish_coreEq _ d _ m ef _ lvl _).2.1 j).trans
      (congrArg nodeCore (hP.2.2.1 j hj))
  · exact ((addFinish_coreEq _ d _ m ef _ lvl _).2.2.1).trans hP.2.2.2.1
  · exact ((addFinish_coreEq _ d _ m ef _ lvl _).2.2.2).trans hP.2.2.2.2

/-- `delete` never changes the arena length. -/
theorem delete_length (g : Graph) (e : Nat) :
    (g.delete e).1.nodes.length = g.nodes.length := by
  cases hl : extLookup g.by_ext e with
  | none => rw [delete_none hl]
  | some nid =>
    by_cases hn : nid < g.nodes.length
    · by_cases hd : (getNode g nid).deleted = true
      · rw [delete_fail_some hl (Or.inr hd)]
      · exact (delete_success hl hn (by simpa using hd)).2.1
    · rw [delete_fail_some hl (Or.inl (Nat.le_of_not_lt hn))]

/-- `delete` makes the external id unresolvable in every case. -/
theorem delete_contains_false (g : Graph) (e : Nat) :
    Graph.contains_ext (g.delete e).1 e = false := by
  cases hl : extLookup g.by_ext e with
  | none =>
    rw [delete_none hl]
    simp [Graph.contains_ext, hl]
  | some nid =>
    by_cases hn : nid < g.nodes.length
    · by_cases hd : (getNode g nid).deleted = true
      · rw [delete_fail_some hl (Or.inr hd)]
        simp [Graph.contains_ext, extLookup_extRemove_self]
      · have hs := delete_success hl hn (by simpa using hd)
        simp [Graph.contains_ext, hs.2.2.2.2.2.2.2.1, extLookup_extRemove_self]
    · rw [delete_fail_some hl (Or.inl (Nat.le_of_not_lt hn))]
      simp [Graph.contains_ext, extLookup_extRemove_self]

/-- `delete` returns true exactly on an active, resolvable external id. -/
theorem delete_true_iff (g : Graph) (e : Nat) :
    (g.delete e).2 = true ↔
      ∃ nid, extLookup g.by_ext e = some nid ∧ nid < g.nodes.length ∧
        (getNode g nid).deleted = false := by
  constructor
  · intro ht
    by_cases he : ∃ nid, extLookup g.by_ext e = some nid
    · obtain ⟨nid, hl⟩ := he
      by_cases hn : nid < g.nodes.length
      · by_cases hd : (getNode g nid).deleted = true
        · rw [delete_fail_some hl (Or.inr hd)] at ht
          exact absurd ht (by simp)
        · exact ⟨nid, hl, hn, by simpa using hd⟩
      · rw [delete_fail_some hl (Or.inl (Nat.le_of_not_lt hn))] at ht
        exact absurd ht (by simp)
    · have hl : extLookup g.by_ext e = none := by
        cases hx : extLookup g.by_ext e with
        | none => rfl
        | some nid => exact absurd ⟨nid, hx⟩ he
      rw [delete_none hl] at ht
      exact absurd ht (by simp)
  · rintro ⟨nid, hl, hn, hd⟩
    exact (delete_success hl hn hd).1

/-- C3 (corrected).  The two failure paths of `search_with_ef`: on a
non-empty arena a wrong-dimensioned query yields `DimensionMismatch`, on an
empty arena the result is `EmptyIndex` whatever the query; in both cases the
graph (nodes, counters, links, timestamps) is returned unchanged.  The same
holds for `search`, which delegates with the index's default `ef`. -/
theorem c3_error_paths (h : Hnsw) (d : MetricFn) (q : Vec) (k ef now : Nat) :
    (h.graph.nodes ≠ [] → q.length ≠ h.dims →
      h.search_with_ef d q k ef now =
        (Except.error (VcalError.DimensionMismatch h.dims q.length), h.graph) ∧
      h.search d q k now =
        (Except.error (VcalError.DimensionMismatch h.dims q.length), h.graph)) ∧
    (h.graph.nodes = [] →
      h.search_with_ef d q k ef now = (Except.error VcalError.EmptyIndex, h.graph) ∧
      h.search d q k now = (Except.error VcalError.EmptyIndex, h.graph)) := by
  constructor
  · intro hne hdim
    have hemp : h.graph.nodes.isEmpty = false := by
      simpa [List.isEmpty_iff] using hne
    constructor <;> simp [Hnsw.search, Hnsw.search_with_ef, hemp, hdim]
  · intro hemp
    have : h.graph.nodes.isEmpty = true := by simp [List.isEmpty_iff, hemp]
    constructor <;> simp [Hnsw.search, Hnsw.search_with_ef, this]

/-- C3 witness: instantiating the amended statement at a concrete non-empty
index with a wrong-dimensioned query and at a concrete empty index. -/
theorem c3_witness :
    (hC4one.graph.nodes ≠ [] ∧ ([] : Vec).length ≠ hC4one.dims ∧
      hC4one.search_with_ef numDot [] 3 10 5 =
        (Except.error (VcalError.DimensionMismatch 1 0), hC4one.graph)) ∧
    (hDims1.graph.nodes = [] ∧
      hDims1.search_with_ef numDot [] 3 10 5 =
        (Except.error VcalError.EmptyIndex, hDims1.graph)) := by
  refine ⟨⟨by decide, by decide, ?_⟩, ⟨by decide, ?_⟩⟩
  · exact ((c3_error_paths hC4one numDot [] 3 10 5).1 (by decide) (by decide)).1
  · exact ((c3_error_paths hDims1 numDot [] 3 10 5).2 (by decide)).1

/-- C3 counterexample: on an *empty* index the emptiness check precedes the
dimensionality check, so a wrong-dimensioned query (length 4, dims 8) gets
`EmptyIndex`, not `DimensionMismatch{expected: 8, found: 4}` as the claim
requires for *every* wrong-length query. -/
theorem c3_counterexample :
    ((buildDefault 8).search_with_ef numDot [0, 0, 0, 0] 1 10 0).1 =
        Except.error VcalError.EmptyIndex ∧
      ((buildDefault 8).search_with_ef numDot [0, 0, 0, 0] 1 10 0).1 ≠
        Except.error (VcalError.DimensionMismatch 8 4) := by
  constructor <;> decide

/-- C4 (corrected).  `delete(ext_id)` returns false when the id is absent or
the mapped node is already deleted; it returns true exactly when it removes
an active node, which it then marks deleted; afterwards `contains(ext_id)` is
false and `active` has been decremented by one.  The round-trip law
`insert(v, e); delete(e)` restores the pre-insert `len()` *provided `e` was
not already present* — an upsert of an existing id deletes the old node first
and ends one lower (see the counterexample). -/
theorem c4_delete_semantics :
    (∀ (g : Graph) (e : Nat), extLookup g.by_ext e = none → g.delete e = (g, false)) ∧
    (∀ (g : Graph) (e : Nat) (nid : NodeId), extLookup g.by_ext e = some nid →
      (getNode g nid).deleted = true → (g.delete e).2 = false) ∧
    (∀ (g : Graph) (e : Nat), (g.delete e).2 = true ↔
      ∃ nid, extLookup g.by_ext e = some nid ∧ nid < g.nodes.length ∧
        (getNode g nid).deleted = false) ∧
    (∀ (g : Graph) (e : Nat) (nid : NodeId), extLookup g.by_ext e = some nid →
      nid < g.nodes.length → (getNode g nid).deleted = false →
      (getNode (g.delete e).1 nid).deleted = true ∧
      (g.delete e).1.active = g.active - 1) ∧
    (∀ (g : Graph) (e : Nat), Graph.contains_ext (g.delete e).1 e = false) ∧
    (∀ (h : Hnsw) (d : MetricFn) (v : Vec) (e lvl now : Nat),
      extLookup h.graph.by_ext e = none → v.length = h.dims →
      ∃ h1, h.insert d v e lvl now = Except.ok h1 ∧
        (h1.delete e).2 = true ∧ (h1.delete e).1.len = h.len ∧
        (h1.delete e).1.contains e = false) := by
  refine ⟨fun g e h => delete_none h, ?_, delete_true_iff, ?_, delete_contains_false, ?_⟩
  · intro g e nid hl hd
    rw [delete_fail_some hl (Or.inr hd)]
  · intro g e nid hl hn hd
    have hs := delete_success hl hn hd
    exact ⟨hs.2.2.1, hs.2.2.2.2.2.2.2.2⟩
  · intro h d v e lvl now hl hdim
    refine ⟨{ h with graph := h.graph.add d v e h.m h.efc lvl now },
      by simp [Hnsw.insert, hdim], ?_⟩
    have hadd : h.graph.add d v e h.m h.efc lvl now =
        h.graph.addNode d v e h.m h.efc lvl now := by
      simp [Graph.add, hl]
    have hA := addNode_effect h.graph d v e h.m h.efc lvl now
    set A := h.graph.addNode d v e h.m h.efc lvl now with hAdef
    have hlook : extLookup A.by_ext e = some h.graph.nodes.length := by
      rw [hA.2.2.2.1]
      exact extLookup_extInsert_self _ _ _
    have hlen : h.graph.nodes.length < A.nodes.length := by
      rw [hA.1]
      omega
    have hdel : (getNode A h.graph.nodes.length).deleted = false := by
      have := congrArg (fun p => p.2.2.2) (hA.2.1)
      simpa [nodeCore] using this
    have hs := delete_success hlook hlen hdel
    refine ⟨?_, ?_, ?_⟩
    · show (Graph.delete _ e).2 = true
      simp only [Hnsw.delete, hadd]
      exact hs.1
    · show (Graph.delete _ e).1.active = h.graph.active
      simp only [Hnsw.delete, hadd]
      rw [hs.2.2.2.2.2.2.2.2, hA.2.2.2.2]
      omega
    · show Graph.contains_ext (Graph.delete _ e).1 e = false
      simp only [Hnsw.delete, hadd]
      exact delete_contains_false A e

/-- C4 witness: the amended semantics at concrete inputs — a fresh insert of
`([1], 5)` into an empty dims-1 index followed by `delete 5` returns true and
restores `len() = 0`; deleting an absent id returns false. -/
theorem c4_witness :
    (Graph.new.delete 9 = (Graph.new, false)) ∧
    (∃ h1, hDims1.insert numDot [1] 5 0 0 = Except.ok h1 ∧
      (h1.delete 5).2 = true ∧ (h1.delete 5).1.len = hDims1.len ∧
      (h1.delete 5).1.contains 5 = false) := by
  constructor
  · exact c4_delete_semantics.1 Graph.new 9 (by decide)
  · exact c4_delete_semantics.2.2.2.2.2 hDims1 numDot [1] 5 0 0 (by decide) (by decide)

/-- C4 counterexample: `insert([2], 5)` on an index already holding ext id 5
is an upsert; the subsequent `delete 5` leaves `len() = 0`, not the
pre-insert value 1, so the law does not hold for *every* `insert;delete`
sequence. -/
theorem c4_counterexample :
    hC4one.len = 1 ∧ hC4one.contains 5 = true ∧
    hC4two = okOrH (hC4one.insert numDot [2] 5 0 1) hC4one ∧
    (hC4two.delete 5).1.len = 0 := by
  refine ⟨by decide, by decide, rfl, by decide⟩

theorem nodeCore_fields {n n' : Node} (h : nodeCore n = nodeCore n') :
    n.ext_id = n'.ext_id ∧ n.vec = n'.vec ∧ n.last_hit = n'.last_hit ∧
      n.deleted = n'.deleted :=
  ⟨congrArg (fun p => p.1) h, congrArg (fun p => p.2.1) h,
   congrArg (fun p => p.2.2.1) h, congrArg (fun p => p.2.2.2) h⟩

/-- C5 (confirmed).  Insert is an upsert: on an index whose external-id map
resolves `e` to an active node `nid` carrying `e` (and no other active node
carries `e`), `add` first deletes `nid` and afterwards exactly one active
node carries `e` — the freshly appended node, whose stored vector is the
newly inserted one. -/
theorem c5_upsert_replaces (g : Graph) (d : MetricFn) (v : Vec)
    (e m ef lvl now : Nat) (nid : NodeId)
    (hl : extLookup g.by_ext e = some nid) (hn : nid < g.nodes.length)
    (hd : (getNode g nid).deleted = false)
    (huniq : ∀ j, j < g.nodes.length → (getNode g j).deleted = false →
      (getNode g j).ext_id = e → j = nid) :
    (g.add d v e m ef lvl now).nodes.length = g.nodes.length + 1 ∧
    (getNode (g.add d v e m ef lvl now) nid).deleted = true ∧
    (getNode (g.add d v e m ef lvl now) g.nodes.length).ext_id = e ∧
    (getNode (g.add d v e m ef lvl now) g.nodes.length).deleted = false ∧
    (getNode (g.add d v e m ef lvl now) g.nodes.length).vec = v ∧
    (∀ j, j < (g.add d v e m ef lvl now).nodes.length →
      (getNode (g.add d v e m ef lvl now) j).deleted = false →
      (getNode (g.add d v e m ef lvl now) j).ext_id = e → j = g.nodes.length) := by
  have hadd : g.add d v e m ef lvl now =
      ((g.delete e).1).addNode d v e m ef lvl now := by
    simp [Graph.add, hl]
  have hs := delete_success hl hn hd
  set D : Graph := (g.delete e).1 with hDdef
  have hDlen : D.nodes.length = g.nodes.length := hs.2.1
  have hA := addNode_effect D d v e m ef lvl now
  rw [hadd]
  have hNewEq : D.nodes.length = g.nodes.length := hDlen
  have hnD : nid < D.nodes.length := by rw [hDlen]; exact hn
  have hnidne : nid ≠ D.nodes.length := Nat.ne_of_lt hnD
  refine ⟨hA.1.trans (congrArg (· + 1) hDlen), ?_, ?_, ?_, ?_, ?_⟩
  · have hc := nodeCore_fields (hA.2.2.1 nid hnidne)
    rw [hc.2.2.2]
    exact hs.2.2.1
  · have h2 := congrArg (fun p => p.1) hA.2.1
    rw [hDlen] at h2
    exact h2
  · have h2 := congrArg (fun p => p.2.2.2) hA.2.1
    rw [hDlen] at h2
    exact h2
  · have h2 := congrArg (fun p => p.2.1) hA.2.1
    rw [hDlen] at h2
    exact h2
  · intro j hjlen hjdel hjext
    by_cases hje : j = g.nodes.length
    · exact hje
    · exfalso
      have hjne : j ≠ D.nodes.length := by rw [hDlen]; exact hje
      have hcD := nodeCore_fields (hA.2.2.1 j hjne)
      have hjdelD : (getNode D j).deleted = false := by rw [← hcD.2.2.2]; exact hjdel
      have hjextD : (getNode D j).ext_id = e := by rw [← hcD.1]; exact hjext
      by_cases hjnid : j = nid
      · subst hjnid
        rw [hs.2.2.1] at hjdelD
        exact absurd hjdelD (by simp)
      · have hcg := nodeCore_fields (hs.2.2.2.2.2.2.1 j hjnid)
        have hjlt : j < g.nodes.length := by
          rw [hA.1, hDlen] at hjlen
          omega
        exact hjnid (huniq j hjlt (by rw [← hcg.2.2.2]; exact hjdelD)
          (by rw [← hcg.1]; exact hjextD))

/-- C5 witness: concrete upsert trace — inserting `[1]↦7, [2]↦8` then
re-inserting ext id 7 with vector `[3]` leaves exactly the two active nodes
`(8, [2])` and `(7, [3])`, the latter freshly allocated. -/
theorem c5_witness :
    ((((Graph.new.add numDot [1] 7 2 1 0 0).add numDot [2] 8 2 1 0 0).add
        numDot [3] 7 2 1 0 1).nodes.length = 3) ∧
    (getNode gTrace5 0).deleted = true ∧
    (getNode gTrace5 2).ext_id = 7 ∧ (getNode gTrace5 2).deleted = false ∧
    (getNode gTrace5 2).vec = [3] := by
  have hpre : gTrace5 =
      ((Graph.new.add numDot [1] 7 2 1 0 0).add numDot [2] 8 2 1 0 0).add
        numDot [3] 7 2 1 0 1 := rfl
  have h := c5_upsert_replaces
    ((Graph.new.add numDot [1] 7 2 1 0 0).add numDot [2] 8 2 1 0 0)
    numDot [3] 7 2 1 0 1 0 (by decide) (by decide) (by decide)
    (by decide)
  exact ⟨h.1, h.2.1, h.2.2.1, h.2.2.2.1, h.2.2.2.2.1⟩

/-- C2 (code bug).  `draw_level` continues a level while `u < exp (−λ)` with
`λ = 1/ln M`, but the distribution required by the spec (and by the
function's own doc comment, `P(level ≥ l) = exp(−l/λ)`) continues while
`u < exp (−1/λ) = 1/M`.  At `M = 16` with first draw `u = 1/2` the code
returns level 1 (then stops on an exhausted stream) while the specified
sampler returns 0, because `1/2 < e^(−1/ln 16) ≈ 0.70` but `1/2 ≥ 1/16`. -/
theorem c2_draw_level_diverges_from_spec :
    draw_level 16 [1/2] = 1 ∧ draw_level_spec 16 [1/2] = 0 := by
  have hlog16 : Real.log 16 = 4 * Real.log 2 := by
    rw [show (16:ℝ) = 2 ^ (4:ℕ) by norm_num, Real.log_pow]
    norm_num
  have h2 : (0.6931471803 : ℝ) < Real.log 2 := Real.log_two_gt_d9
  constructor
  · have hlt : (1/2 : ℝ) < Real.exp (-(1 / Real.log 16)) := by
      have h1 : Real.log (1/2) < -(1 / Real.log 16) := by
        rw [hlog16, show Real.log (1/2) = -Real.log 2 by rw [one_div, Real.log_inv],
          neg_lt_neg_iff, div_lt_iff₀ (by nlinarith)]
        nlinarith
      calc (1/2 : ℝ) = Real.exp (Real.log (1/2)) := (Real.exp_log (by norm_num)).symm
        _ < _ := Real.exp_lt_exp.mpr h1
    simp only [draw_level, levelFromDraws, if_pos hlt]
  · have hx : Real.exp (-Real.log 16) = 16⁻¹ := by
      rw [Real.exp_neg, Real.exp_log (by norm_num)]
    have hnlt : ¬ ((1/2 : ℝ) < Real.exp (-Real.log 16)) := by
      rw [hx]; norm_num
    simp only [draw_level_spec, levelFromDraws, if_neg hnlt]

/-- C8 (confirmed).  `evict_lru_until` returns `(0, 0)` without touching the
graph whenever the cap predicate is already satisfied on entry; otherwise it
deletes active nodes in ascending `last_hit` order until the predicate turns
false — on the concrete ten-item index, `evict_lru_until(Some 5, None)`
evicts the five least-recently-used nodes, leaving `len() = 5` with exactly
the five newest survivors. -/
theorem c8_lru_eviction :
    (∀ (g : Graph) (mv mb : Option Nat) (now : Nat),
      lruNeed mv mb g.active g.total_bytes = false →
      g.evict_lru_until mv mb now = (g, (0, 0))) ∧
    ((gTrace8.evict_lru_until (some 5) none 99).2 = (5, 0) ∧
     (gTrace8.evict_lru_until (some 5) none 99).1.active = 5 ∧
     ((gTrace8.evict_lru_until (some 5) none 99).1.nodes.filter
        (fun n => !n.deleted)).map (fun n => (n.ext_id, n.last_hit)) =
       [(205, 6), (206, 7), (207, 8), (208, 9), (209, 10)] ∧
     gTrace8.active = 10) := by
  constructor
  · intro g mv mb now h
    simp [Graph.evict_lru_until, h]
  · exact ⟨by decide, by decide, by decide, by decide⟩

/-- C8 witness: on the ten-item trace with cap 20 the predicate is false on
entry, so the call returns `(0,0)` and the graph is untouched. -/
theorem c8_witness :
    lruNeed (some 20) none gTrace8.active gTrace8.total_bytes = false ∧
    gTrace8.evict_lru_until (some 20) none 0 = (gTrace8, (0, 0)) :=
  ⟨by decide, c8_lru_eviction.1 gTrace8 (some 20) none 0 (by decide)⟩

theorem is_valid_false_of_all_deleted {g : Graph}
    (hall : ∀ n ∈ g.nodes, n.deleted = true) (nid : NodeId) :
    g.is_valid_nid nid = false := by
  unfold Graph.is_valid_nid
  by_cases h : nid < g.nodes.length
  · have hmem : getNode g nid ∈ g.nodes := by
      unfold getNode
      rw [List.getD_eq_getElem?_getD, List.getElem?_eq_getElem h]
      exact List.getElem_mem h
    rw [hall _ hmem]
    simp
  · simp [h]

theorem pick_entry_none_of_all_deleted {g : Graph}
    (hall : ∀ n ∈ g.nodes, n.deleted = true) : g.pick_entry = none := by
  unfold Graph.pick_entry
  rw [List.findSome?_eq_none_iff]
  intro lvl _
  rw [List.find?_eq_none]
  intro nid _
  rw [is_valid_false_of_all_deleted hall nid]
  simp

theorem knn_all_deleted (g : Graph) (d : MetricFn) (q : Vec) (k ef : Nat)
    (hall : ∀ n ∈ g.nodes, n.deleted = true) : g.knn d q k ef = [] := by
  unfold Graph.knn
  by_cases hc : (g.nodes.isEmpty || k == 0) = true
  · rw [if_pos hc]
  · rw [if_neg hc, pick_entry_none_of_all_deleted hall]
    cases hentry : g.entry with
    | none => rfl
    | some ep =>
      simp only [is_valid_false_of_all_deleted hall ep]
      rfl

/-- C10 (confirmed).  The emptiness check tests the arena, which keeps
tombstoned slots (`delete` never shrinks it), so once the arena is non-empty
no search can return `EmptyIndex` again; a correctly-dimensioned query on an
all-deleted index returns `Ok []` and leaves the graph unchanged. -/
theorem c10_tombstones_never_empty_index :
    (∀ (h : Hnsw) (d : MetricFn) (q : Vec) (k ef now : Nat), h.graph.nodes ≠ [] →
      ((h.search_with_ef d q k ef now).1 ≠ Except.error VcalError.EmptyIndex) ∧
      ((∀ n ∈ h.graph.nodes, n.deleted = true) → q.length = h.dims →
        h.search_with_ef d q k ef now = (Except.ok [], h.graph))) ∧
    (∀ (g : Graph) (e : Nat), (g.delete e).1.nodes.length = g.nodes.length) := by
  refine ⟨?_, delete_length⟩
  intro h d q k ef now hne
  have hemp : h.graph.nodes.isEmpty = false := by
    simpa [List.isEmpty_iff] using hne
  constructor
  · by_cases hdim : q.length = h.dims
    · simp [Hnsw.search_with_ef, hemp, hdim]
    · simp [Hnsw.search_with_ef, hemp, hdim]
  · intro hall hdim
    have hknn := knn_all_deleted h.graph d q k (max ef (max k 1)) hall
    simp [Hnsw.search_with_ef, hemp, hdim, hknn, Graph.touch_many]

/-- C10 witness: insert one vector then delete it; the arena still holds the
tombstone, and a well-dimensioned search returns `Ok []`, not `EmptyIndex`. -/
theorem c10_witness :
    hAllDeleted.graph.nodes ≠ [] ∧
    hAllDeleted.search_with_ef numDot [1] 1 8 0 = (Except.ok [], hAllDeleted.graph) := by
  refine ⟨by decide, ?_⟩
  exact ((c10_tombstones_never_empty_index.1 hAllDeleted numDot [1] 1 8 0 (by decide)).2
    (by decide) (by decide))

/-! ### C9: the TTL sweep -/

theorem repairLoop_nodes : ∀ (fuel : Nat) (g : Graph),
    (Graph.repairLoop fuel g).nodes = g.nodes := by
  intro fuel
  induction fuel with
  | zero => intro g; rfl
  | succ n ih =>
    intro g
    unfold Graph.repairLoop
    split
    · rw [ih]
    · rfl

theorem repair_nodes (g : Graph) : g.repair_after_mass_deletes.nodes = g.nodes := by
  simp only [Graph.repair_after_mass_deletes]
  split
  · exact repairLoop_nodes _ g
  · exact repairLoop_nodes _ g

theorem getNode_default_of_le {g : Graph} {j : NodeId} (h : g.nodes.length ≤ j) :
    getNode g j = default :=
  getD_out_of_range _ h _

/-- `delete` preserves the external-id map well-formedness. -/
theorem delete_extOk {g : Graph} (hx : ExtOk g) (e : Nat) : ExtOk (g.delete e).1 := by
  cases hl : extLookup g.by_ext e with
  | none => rw [delete_none hl]; exact hx
  | some nid =>
    by_cases hn : nid < g.nodes.length
    · by_cases hd : (getNode g nid).deleted = true
      · rw [delete_fail_some hl (Or.inr hd)]
        intro i hi hdel
        have hdel' : (getNode g i).deleted = false := hdel
        have hxi := hx i hi hdel
        by_cases heq : (getNode g i).ext_id = e
        · exfalso
          have h1 : extLookup g.by_ext e = some i := by rw [← heq]; exact hxi
          rw [hl] at h1
          have hin : nid = i := Option.some.inj h1
          rw [hin] at hd
          rw [hd] at hdel'
          exact absurd hdel' (by simp)
        · show extLookup (extRemove g.by_ext e) (getNode g i).ext_id = some i
          rw [extLookup_extRemove_ne _ heq]
          exact hxi
      · have hs := delete_success hl hn (by simpa using hd)
        intro i hi hdel
        have hlen : i < g.nodes.length := by rw [← hs.2.1]; exact hi
        have hine : i ≠ nid := by
          intro he
          rw [he] at hdel
          rw [hs.2.2.1] at hdel
          exact absurd hdel (by simp)
        have hcg := nodeCore_fields (hs.2.2.2.2.2.2.1 i hine)
        have hdelg : (getNode g i).deleted = false := by rw [← hcg.2.2.2]; exact hdel
        have hxi := hx i hlen hdelg
        by_cases heq : (getNode g i).ext_id = e
        · exfalso
          have h1 : extLookup g.by_ext e = some i := by rw [← heq]; exact hxi
          rw [hl] at h1
          exact hine (Option.some.inj h1).symm
        · rw [hs.2.2.2.2.2.2.2.1, hcg.1, extLookup_extRemove_ne _ heq]
          exact hxi
    · rw [delete_fail_some hl (Or.inl (Nat.le_of_not_lt hn))]
      intro i hi hdel
      have hxi := hx i hi hdel
      by_cases heq : (getNode g i).ext_id = e
      · exfalso
        have h1 : extLookup g.by_ext e = some i := by rw [← heq]; exact hxi
        rw [hl] at h1
        exact hn ((Option.some.inj h1) ▸ hi)
      · show extLookup (extRemove g.by_ext e) (getNode g i).ext_id = some i
        rw [extLookup_extRemove_ne _ heq]
        exact hxi

/-- Characterization of the TTL-sweep fold over the first `k` arena slots. -/
theorem ttl_fold_char (g : Graph) (ttl now : Nat) (hx : ExtOk g) : ∀ k : Nat,
    ((List.range k).foldl (Graph.ttlStep ttl now) (g, 0)).1.nodes.length =
      g.nodes.length ∧
    ExtOk ((List.range k).foldl (Graph.ttlStep ttl now) (g, 0)).1 ∧
    (∀ i, (getNode ((List.range k).foldl (Graph.ttlStep ttl now) (g, 0)).1 i).ext_id =
        (getNode g i).ext_id ∧
      (getNode ((List.range k).foldl (Graph.ttlStep ttl now) (g, 0)).1 i).last_hit =
        (getNode g i).last_hit) ∧
    (∀ i, i < k →
      ((getNode ((List.range k).foldl (Graph.ttlStep ttl now) (g, 0)).1 i).deleted = true ↔
        ((getNode g i).deleted = true ∨ ttl < now - (getNode g i).last_hit))) ∧
    (∀ i, k ≤ i →
      (getNode ((List.range k).foldl (Graph.ttlStep ttl now) (g, 0)).1 i).deleted =
        (getNode g i).deleted) := by
  intro k
  induction k with
  | zero =>
    exact ⟨rfl, hx, fun i => ⟨rfl, rfl⟩, fun i hi => absurd hi (by omega),
      fun i _ => rfl⟩
  | succ k ih =>
    rw [List.range_succ, List.foldl_append]
    obtain ⟨ihlen, ihx, ihmeta, ihlt, ihge⟩ := ih
    simp only [List.foldl_cons, List.foldl_nil]
    set stp := (List.range k).foldl (Graph.ttlStep ttl now) (g, 0) with hstp
    by_cases hdel : (getNode stp.1 k).deleted = true
    · have hstep : Graph.ttlStep ttl now stp k = stp := by
        unfold Graph.ttlStep
        rw [if_pos hdel]
      rw [hstep]
      refine ⟨ihlen, ihx, ihmeta, ?_, fun i hi => ihge i (by omega)⟩
      intro i hi
      by_cases hik : i < k
      · exact ihlt i hik
      · have hik2 : i = k := by omega
        subst hik2
        have horig : (getNode g i).deleted = true := (ihge i (le_refl i)).symm.trans hdel
        rw [hdel]
        simp [horig]
    · have hklen : k < stp.1.nodes.length := by
        by_contra hc
        rw [getNode_default_of_le (Nat.le_of_not_lt hc)] at hdel
        exact hdel rfl
      have hdelF : (getNode stp.1 k).deleted = false := by simpa using hdel
      by_cases hcond : ttl < now - (getNode stp.1 k).last_hit
      · have hstep : Graph.ttlStep ttl now stp k =
            ((stp.1.delete (getNode stp.1 k).ext_id).1,
             if (stp.1.delete (getNode stp.1 k).ext_id).2 then stp.2 + 1 else stp.2) := by
          unfold Graph.ttlStep
          rw [if_neg (by simp [hdelF]), if_pos hcond]
        rw [hstep]
        have hlook : extLookup stp.1.by_ext (getNode stp.1 k).ext_id = some k :=
          ihx k hklen hdelF
        have hs := delete_success hlook hklen hdelF
        refine ⟨hs.2.1.trans ihlen, delete_extOk ihx _, ?_, ?_, ?_⟩
        · intro i
          by_cases hik : i = k
          · subst hik
            exact ⟨hs.2.2.2.2.1.trans (ihmeta i).1, hs.2.2.2.2.2.1.trans (ihmeta i).2⟩
          · have hc := nodeCore_fields (hs.2.2.2.2.2.2.1 i hik)
            exact ⟨hc.1.trans (ihmeta i).1, hc.2.2.1.trans (ihmeta i).2⟩
        · intro i hi
          by_cases hik : i = k
          · subst hik
            rw [hs.2.2.1]
            have : ttl < now - (getNode g i).last_hit := by
              rw [← (ihmeta i).2]
              exact hcond
            simp [this]
          · have hik2 : i < k := by omega
            have hc := nodeCore_fields (hs.2.2.2.2.2.2.1 i hik)
            rw [hc.2.2.2]
            exact ihlt i hik2
        · intro i hi
          have hik : i ≠ k := by omega
          have hc := nodeCore_fields (hs.2.2.2.2.2.2.1 i hik)
          rw [hc.2.2.2]
          exact ihge i (by omega)
      · have hstep : Graph.ttlStep ttl now stp k = stp := by
          unfold Graph.ttlStep
          rw [if_neg (by simp [hdelF]), if_neg hcond]
        rw [hstep]
        refine ⟨ihlen, ihx, ihmeta, ?_, fun i hi => ihge i (by omega)⟩
        intro i hi
        by_cases hik : i < k
        · exact ihlt i hik
        · have hik2 : i = k := by omega
          subst hik2
          rw [ihge i (le_refl i)] at hdelF
          rw [(ihmeta i).2] at hcond
          constructor
          · intro hcontra
            rw [ihge i (le_refl i), hdelF] at hcontra
            exact absurd hcontra (by simp)
          · rintro (hd2 | hc2)
            · rw [hd2] at hdelF
              exact absurd hdelF (by simp)
            · exact absurd hc2 hcond

/-- C9 (confirmed).  Under the `by_ext` well-formedness invariant, the TTL
sweep deletes an active node exactly when `now − last_hit > ttl_secs`
(saturating subtraction), and leaves every other node's deletion state
untouched; consequently a touched node (`last_hit = now`) survives
`evict_ttl(0)` at time `now`. -/
theorem c9_ttl_sweep (g : Graph) (ttl now : Nat) (hx : ExtOk g) :
    ((g.evict_ttl ttl now).1.nodes.length = g.nodes.length) ∧
    (∀ i, i < g.nodes.length →
      ((getNode (g.evict_ttl ttl now).1 i).deleted = true ↔
        ((getNode g i).deleted = true ∨ ttl < now - (getNode g i).last_hit))) ∧
    (∀ e nid, extLookup g.by_ext e = some nid → nid < g.nodes.length →
      (getNode g nid).deleted = false →
      (getNode ((g.touch_many [e] now).evict_ttl 0 now).1 nid).deleted = false) := by
  have hmain : ∀ (g' : Graph), ExtOk g' → ∀ ttl' now',
      ((g'.evict_ttl ttl' now').1.nodes.length = g'.nodes.length) ∧
      (∀ i, i < g'.nodes.length →
        ((getNode (g'.evict_ttl ttl' now').1 i).deleted = true ↔
          ((getNode g' i).deleted = true ∨ ttl' < now' - (getNode g' i).last_hit))) := by
    intro g' hx' ttl' now'
    have hch := ttl_fold_char g' ttl' now' hx' g'.nodes.length
    unfold Graph.evict_ttl
    constructor
    · show (Graph.repair_after_mass_deletes _).nodes.length = _
      rw [repair_nodes]
      exact hch.1
    · intro i hi
      show (getNode (Graph.repair_after_mass_deletes _) i).deleted = true ↔ _
      rw [getNode_congr (repair_nodes _) i]
      exact hch.2.2.2.1 i hi
  refine ⟨(hmain g hx ttl now).1, (hmain g hx ttl now).2, ?_⟩
  intro e nid hl hn hd
  have htouch : g.touch_many [e] now =
      setNode g nid { getNode g nid with last_hit := now } := by
    unfold Graph.touch_many
    simp only [List.foldl_cons, List.foldl_nil, hl]
    rw [if_pos hn, if_pos (by simp [hd])]
  set T : Graph := setNode g nid { getNode g nid with last_hit := now } with hT
  have hTlen : T.nodes.length = g.nodes.length := nodes_length_setNode _ _ _
  have hTnid : getNode T nid = { getNode g nid with last_hit := now } :=
    getNode_setNode_self _ hn
  have hxT : ExtOk T := by
    intro i hi hdel
    by_cases hik : i = nid
    · subst hik
      rw [hTnid]
      show extLookup g.by_ext (getNode g i).ext_id = some i
      exact hx i hn hd
    · rw [getNode_setNode_ne _ (Ne.symm hik)] at hdel ⊢
      exact hx i (by rw [← hTlen]; exact hi) hdel
  rw [htouch]
  have hchar := (hmain T hxT 0 now).2 nid (by rw [hTlen]; exact hn)
  have hfalse : ¬ ((getNode T nid).deleted = true ∨
      0 < now - (getNode T nid).last_hit) := by
    rw [hTnid]
    push_neg
    constructor
    · show ¬ (getNode g nid).deleted = true
      simp [hd]
    · show now - now ≤ 0
      omega
  rcases hres : (getNode ((T.evict_ttl 0 now)).1 nid).deleted with _ | _
  · rfl
  · exact absurd (hchar.mp hres) hfalse

/-- C9 witness: on the one-node trace (`last_hit = 42`, well-formed map),
`evict_ttl 0` at `now = 42` does not evict the node. -/
theorem c9_witness :
    ExtOk gTouch1 ∧
    (getNode ((gTouch1.touch_many [1] 42).evict_ttl 0 42).1 0).deleted = false := by
  have hx : ExtOk gTouch1 := by
    intro i hi hdel
    have hlen : gTouch1.nodes.length = 1 := by decide
    rw [hlen] at hi
    have h0 : i = 0 := by omega
    subst h0
    decide
  exact ⟨hx, (c9_ttl_sweep gTouch1 0 42 hx).2.2 1 0 (by decide) (by decide) (by decide)⟩

/-! ## C6: snapshot round-trip -/

theorem recompute_links (n : Node) : (n.recompute_bytes.1).links = n.links := rfl

theorem sanitizeNode_fst_links (nlen : Nat) (flags : List Bool) (i : Nat) (n : Node) :
    (sanitizeNode nlen flags i n).1.links =
      (if n.links.isEmpty then [[]] else n.links).map (cleanLinks nlen flags i) := by
  by_cases h : n.links.isEmpty <;> simp [sanitizeNode, h]

theorem sanitizeNode_fst_ext (nlen : Nat) (flags : List Bool) (i : Nat) (n : Node) :
    (sanitizeNode nlen flags i n).1.ext_id = n.ext_id := by
  by_cases h : n.links.isEmpty <;> simp [sanitizeNode, h]

theorem sanitizeNode_fst_vec (nlen : Nat) (flags : List Bool) (i : Nat) (n : Node) :
    (sanitizeNode nlen flags i n).1.vec = n.vec := by
  by_cases h : n.links.isEmpty <;> simp [sanitizeNode, h]

/-- `sanitize` keeps every node's `(ext_id, vec)` pair in place. -/
theorem sanitize_map_ext_vec (g : Graph) :
    (g.sanitize).1.nodes.map (fun n => (n.ext_id, n.vec)) =
      g.nodes.map (fun n => (n.ext_id, n.vec)) := by
  have key : ∀ (is : List Nat) (l : List Node), l.length ≤ is.length →
      (((((is.zip l).map
            (fun p => sanitizeNode g.nodes.length (g.nodes.map (fun n => n.deleted)) p.1 p.2)).map
          (fun x => x.1)).map
        (fun n => n.recompute_bytes.1)).map (fun n => (n.ext_id, n.vec)))
      = l.map (fun n => (n.ext_id, n.vec)) := by
    intro is
    induction is with
    | nil =>
      intro l hl
      have h0 : l = [] := List.length_eq_zero.mp (Nat.le_zero.mp hl)
      subst h0; rfl
    | cons i is ih =>
      intro l hl
      cases l with
      | nil => rfl
      | cons a l =>
        simp only [List.zip_cons_cons, List.map_cons]
        rw [ih l (by simpa using hl)]
        congr 1
        show ((((sanitizeNode _ _ i a).1.recompute_bytes).1).ext_id,
              (((sanitizeNode _ _ i a).1.recompute_bytes).1).vec) = (a.ext_id, a.vec)
        rw [show ∀ m : Node, (m.recompute_bytes.1).ext_id = m.ext_id from fun _ => rfl,
            show ∀ m : Node, (m.recompute_bytes.1).vec = m.vec from fun _ => rfl,
            sanitizeNode_fst_ext, sanitizeNode_fst_vec]
  show ((((((List.range g.nodes.length).zip g.nodes).map
        (fun p => sanitizeNode g.nodes.length (g.nodes.map (fun n => n.deleted)) p.1 p.2)).map
      (fun x => x.1)).map
    (fun n => n.recompute_bytes.1)).map (fun n => (n.ext_id, n.vec)))
    = g.nodes.map (fun n => (n.ext_id, n.vec))
  exact key (List.range g.nodes.length) g.nodes (by simp)

/-- The per-layer link lists `sanitize` produces depend only on the nodes'
`links` and `deleted` fields. -/
theorem sanitize_links_congr (g1 g2 : Graph)
    (hlinks : g1.nodes.map (fun n => n.links) = g2.nodes.map (fun n => n.links))
    (hdel : g1.nodes.map (fun n => n.deleted) = g2.nodes.map (fun n => n.deleted)) :
    (g1.sanitize).1.nodes.map (fun n => n.links) =
      (g2.sanitize).1.nodes.map (fun n => n.links) := by
  have hlen : g1.nodes.length = g2.nodes.length := by
    have h := congrArg List.length hlinks
    simpa using h
  have key : ∀ (is : List Nat) (l1 l2 : List Node),
      l1.map (fun n => n.links) = l2.map (fun n => n.links) →
      (((((is.zip l1).map
            (fun p => sanitizeNode g1.nodes.length (g1.nodes.map (fun n => n.deleted)) p.1 p.2)).map
          (fun x => x.1)).map
        (fun n => n.recompute_bytes.1)).map (fun n => n.links))
      = (((((is.zip l2).map
            (fun p => sanitizeNode g1.nodes.length (g1.nodes.map (fun n => n.deleted)) p.1 p.2)).map
          (fun x => x.1)).map
        (fun n => n.recompute_bytes.1)).map (fun n => n.links)) := by
    intro is
    induction is with
    | nil => intro l1 l2 _; rfl
    | cons i is ih =>
      intro l1 l2 h
      cases l1 with
      | nil =>
        cases l2 with
        | nil => rfl
        | cons b l2 => simp at h
      | cons a l1 =>
        cases l2 with
        | nil => simp at h
        | cons b l2 =>
          simp only [List.map_cons, List.cons.injEq] at h
          simp only [List.zip_cons_cons, List.map_cons]
          rw [ih l1 l2 h.2]
          congr 1
          show (((sanitizeNode _ _ i a).1.recompute_bytes).1).links =
               (((sanitizeNode _ _ i b).1.recompute_bytes).1).links
          rw [recompute_links, recompute_links, sanitizeNode_fst_links,
              sanitizeNode_fst_links, h.1]
  show ((((((List.range g1.nodes.length).zip g1.nodes).map
        (fun p => sanitizeNode g1.nodes.length (g1.nodes.map (fun n => n.deleted)) p.1 p.2)).map
      (fun x => x.1)).map
    (fun n => n.recompute_bytes.1)).map (fun n => n.links))
    = ((((((List.range g2.nodes.length).zip g2.nodes).map
        (fun p => sanitizeNode g2.nodes.length (g2.nodes.map (fun n => n.deleted)) p.1 p.2)).map
      (fun x => x.1)).map
    (fun n => n.recompute_bytes.1)).map (fun n => n.links))
  rw [← hlen, ← hdel]
  exact key (List.range g1.nodes.length) g1.nodes g2.nodes hlinks

/-- On a dimension-clean snapshot, `Hnsw::from_slice` succeeds, carries over
the scalar parameters, and rebuilds the arena as `convNode` of each snapshot
node followed by `sanitize`. -/
theorem hnsw_from_slice_none (snap : SerIndex) (now : Nat)
    (hfind : snap.graph.nodes.find? (fun sn => sn.vec.length != snap.dims) = none) :
    ∃ g1 : Graph,
      Hnsw.from_slice snap now =
        Except.ok ⟨snap.dims, snap.m, snap.ef, max snap.ef 1, (g1.sanitize).1⟩ ∧
      g1.nodes = snap.graph.nodes.map (convNode now) := by
  have h0 : ∃ g1 : Graph,
      VCal.from_slice snap now = Except.ok ⟨snap.dims, snap.m, snap.ef, max snap.ef 1, g1⟩ ∧
      g1.nodes = snap.graph.nodes.map (convNode now) := by
    simp only [VCal.from_slice, hfind]
    exact ⟨_, rfl, rfl⟩
  obtain ⟨g1, hE, hn⟩ := h0
  exact ⟨g1, by simp only [Hnsw.from_slice, hE], hn⟩

/-- C6 (counterexample): the round-trip does NOT preserve per-layer links (even
up to `sanitize`'s cleanup) when the arena holds tombstones.  In the `hTrace6`
index the sanitized original keeps, at the node with `ext_id = 11`, the layer-0
adjacency `[2]`, pointing at the active node with `ext_id = 12`; after
export/import the `ext_id = 11` node has the empty adjacency `[[]]`, because
`to_bytes` drops the tombstone and the node ids stored inside `links` are left
pointing into the old arena, where the re-imported `sanitize` pass erases them
as out of range or self-referential. -/
theorem c6_counterexample :
    (getNode (hTrace6.graph.sanitize).1 1).ext_id = 11 ∧
    (getNode (hTrace6.graph.sanitize).1 1).deleted = false ∧
    (getNode (hTrace6.graph.sanitize).1 1).links = [[2]] ∧
    (getNode (hTrace6.graph.sanitize).1 2).ext_id = 12 ∧
    (getNode (hTrace6.graph.sanitize).1 2).deleted = false ∧
    Hnsw.from_slice (to_bytes hTrace6) 0 = Except.ok hTrace6RT ∧
    (getNode hTrace6RT.graph 0).ext_id = 11 ∧
    (getNode hTrace6RT.graph 0).deleted = false ∧
    (getNode hTrace6RT.graph 0).links = [[]] := by
  decide

/-- C6 (amended): when the source index carries no tombstones (every arena node
active) and every stored vector has `dims` components, the snapshot round-trip
succeeds, preserves `dims`, `M` and `ef`, keeps the nodes' `(ext_id, vec)`
pairs in arena order, and yields exactly the per-layer links `sanitize` gives
the original; moreover the concrete S5 scenario holds: after inserting
`([1/2; 8], 7)` into a default-built index, exporting and importing, a
`search` for the same vector returns the single hit `ext_id = 7`. -/
theorem c6_roundtrip :
    (∀ (h : Hnsw) (now : Nat),
      (∀ n ∈ h.graph.nodes, n.deleted = false) →
      (∀ n ∈ h.graph.nodes, n.vec.length = h.dims) →
      ∃ h' : Hnsw,
        Hnsw.from_slice (to_bytes h) now = Except.ok h' ∧
        h'.dims = h.dims ∧ h'.m = h.m ∧ h'.ef = h.ef ∧
        h'.graph.nodes.map (fun n => (n.ext_id, n.vec)) =
          h.graph.nodes.map (fun n => (n.ext_id, n.vec)) ∧
        h'.graph.nodes.map (fun n => n.links) =
          (h.graph.sanitize).1.nodes.map (fun n => n.links)) ∧
    (hS5RT.search numDot (List.replicate 8 half) 1 9).1 =
      Except.ok [(7, intToRat (-7))] := by
  constructor
  · intro h now hdel hdims
    have hfilter : h.graph.nodes.filter (fun n => !n.deleted) = h.graph.nodes :=
      List.filter_eq_self.mpr (fun a ha => by rw [hdel a ha]; rfl)
    have hsnap : to_bytes h = ⟨h.dims, h.m, h.ef,
        ⟨h.graph.nodes.map (fun n => ⟨n.ext_id, n.vec, n.links, some n.last_hit⟩)⟩⟩ := by
      simp only [to_bytes, hfilter]
    have hfind : (to_bytes h).graph.nodes.find?
        (fun sn => sn.vec.length != (to_bytes h).dims) = none := by
      rw [hsnap]
      refine List.find?_eq_none.mpr ?_
      intro sn hsn
      rcases List.mem_map.mp hsn with ⟨n, hn, rfl⟩
      simp [hdims n hn]
    obtain ⟨g1, hE, hn⟩ := hnsw_from_slice_none (to_bytes h) now hfind
    have hg1 : g1.nodes = h.graph.nodes.map (fun n =>
        convNode now ⟨n.ext_id, n.vec, n.links, some n.last_hit⟩) := by
      rw [hn, hsnap, List.map_map]
      rfl
    refine ⟨_, hE, rfl, rfl, rfl, ?_, ?_⟩
    · show ((g1.sanitize).1.nodes.map (fun n => (n.ext_id, n.vec))) = _
      rw [sanitize_map_ext_vec, hg1, List.map_map]
      rfl
    · show ((g1.sanitize).1.nodes.map (fun n => n.links)) = _
      refine sanitize_links_congr g1 h.graph ?_ ?_
      · rw [hg1, List.map_map]
        rfl
      · rw [hg1, List.map_map]
        refine List.map_congr_left ?_
        intro a ha
        exact (hdel a ha).symm
  · decide

/-- C6 witness: the theorem's general conjunct applied to the concrete
one-node index `hS5`, whose tombstone-freeness and vector dimensions are
checked by evaluation. -/
theorem c6_witness :
    (∀ n ∈ hS5.graph.nodes, n.deleted = false) ∧
    (∀ n ∈ hS5.graph.nodes, n.vec.length = hS5.dims) ∧
    ∃ h' : Hnsw,
      Hnsw.from_slice (to_bytes hS5) 0 = Except.ok h' ∧
      h'.dims = hS5.dims ∧ h'.m = hS5.m ∧ h'.ef = hS5.ef ∧
      h'.graph.nodes.map (fun n => (n.ext_id, n.vec)) =
        hS5.graph.nodes.map (fun n => (n.ext_id, n.vec)) ∧
      h'.graph.nodes.map (fun n => n.links) =
        (hS5.graph.sanitize).1.nodes.map (fun n => n.links) :=
  ⟨by decide, by decide, c6_roundtrip.1 hS5 0 (by decide) (by decide)⟩

/-! ## C1: the link invariant

List-level toolkit: the sort/dedup pipeline produces duplicate-free lists,
and `swap_remove` preserves `Nodup` and membership. -/

theorem insSorted_perm {α : Type _} (le : α → α → Bool) (x : α) :
    ∀ l : List α, List.Perm (insSorted le l x) (x :: l) := by
  intro l
  induction l with
  | nil => exact List.Perm.refl _
  | cons y ys ih =>
    show List.Perm (if le y x then y :: insSorted le ys x else x :: y :: ys) (x :: y :: ys)
    by_cases h : le y x
    · rw [if_pos h]
      exact (List.Perm.cons y ih).trans (List.Perm.swap x y ys)
    · rw [if_neg h]

theorem foldl_insSorted_perm {α : Type _} (le : α → α → Bool) :
    ∀ (l acc : List α), List.Perm (l.foldl (insSorted le) acc) (l ++ acc) := by
  intro l
  induction l with
  | nil => intro acc; exact List.Perm.refl _
  | cons x xs ih =>
    intro acc
    show List.Perm (xs.foldl (insSorted le) (insSorted le acc x)) ((x :: xs) ++ acc)
    refine ((ih (insSorted le acc x)).trans ?_)
    refine (List.Perm.append_left xs (insSorted_perm le x acc)).trans ?_
    exact List.perm_middle

theorem sortByD_perm {α : Type _} (le : α → α → Bool) (l : List α) :
    List.Perm (sortByD le l) l := by
  have h := foldl_insSorted_perm le l []
  simpa [sortByD] using h

theorem rdedup_subset : ∀ (l : List Nat), ∀ a ∈ rdedup l, a ∈ l := by
  intro l
  induction l with
  | nil => intro a ha; simpa [rdedup] using ha
  | cons x t ih =>
    cases t with
    | nil => intro a ha; simpa [rdedup] using ha
    | cons y r =>
      intro a ha
      rw [show rdedup (x :: y :: r) =
          if x = y then rdedup (y :: r) else x :: rdedup (y :: r) from rfl] at ha
      by_cases hxy : x = y
      · rw [if_pos hxy] at ha
        exact List.mem_cons_of_mem x (ih a ha)
      · rw [if_neg hxy] at ha
        rcases List.mem_cons.mp ha with rfl | h2
        · exact List.mem_cons_self _ _
        · exact List.mem_cons_of_mem x (ih a h2)

theorem rdedup_pairwise_lt : ∀ (l : List Nat), l.Pairwise (fun a b => a ≤ b) →
    (rdedup l).Pairwise (fun a b => a < b) := by
  intro l
  induction l with
  | nil => intro _; simp [rdedup]
  | cons x t ih =>
    cases t with
    | nil => intro _; simp [rdedup]
    | cons y r =>
      intro h
      have hx : ∀ z ∈ y :: r, x ≤ z := (List.pairwise_cons.mp h).1
      have ht : (y :: r).Pairwise (fun a b => a ≤ b) := (List.pairwise_cons.mp h).2
      have hy : ∀ z ∈ r, y ≤ z := (List.pairwise_cons.mp ht).1
      rw [show rdedup (x :: y :: r) =
          if x = y then rdedup (y :: r) else x :: rdedup (y :: r) from rfl]
      by_cases hxy : x = y
      · rw [if_pos hxy]
        exact ih ht
      · rw [if_neg hxy]
        refine List.pairwise_cons.mpr ⟨?_, ih ht⟩
        intro z hz
        have hzm : z ∈ y :: r := rdedup_subset _ z hz
        refine Nat.lt_of_le_of_ne (hx z hzm) ?_
        intro hEq
        rcases List.mem_cons.mp hzm with h1 | hzr
        · omega
        · have h2 : y ≤ z := hy z hzr
          have h3 : x ≤ y := hx y (List.mem_cons_self _ _)
          omega

theorem insSorted_pairwise_le (x : Nat) :
    ∀ (l : List Nat), l.Pairwise (fun a b => a ≤ b) →
      (insSorted (fun a b => decide (a ≤ b)) l x).Pairwise (fun a b => a ≤ b) := by
  intro l
  induction l with
  | nil => intro _; simp [insSorted]
  | cons y ys ih =>
    intro h
    have hy : ∀ z ∈ ys, y ≤ z := (List.pairwise_cons.mp h).1
    have ht : ys.Pairwise (fun a b => a ≤ b) := (List.pairwise_cons.mp h).2
    show (if decide (y ≤ x) then y :: insSorted (fun a b => decide (a ≤ b)) ys x
          else x :: y :: ys).Pairwise (fun a b => a ≤ b)
    by_cases hyx : y ≤ x
    · rw [if_pos (decide_eq_true hyx)]
      refine List.pairwise_cons.mpr ⟨?_, ih ht⟩
      intro z hz
      have hzm : z ∈ x :: ys := (insSorted_perm _ x ys).mem_iff.mp hz
      rcases List.mem_cons.mp hzm with rfl | hzys
      · exact hyx
      · exact hy z hzys
    · rw [if_neg (by simpa using hyx)]
      have hxy : x ≤ y := Nat.le_of_not_le hyx
      refine List.pairwise_cons.mpr ⟨?_, h⟩
      intro z hz
      rcases List.mem_cons.mp hz with rfl | hzys
      · exact hxy
      · exact Nat.le_trans hxy (hy z hzys)

theorem sortByD_pairwise_le (l : List Nat) :
    (sortByD (fun a b => decide (a ≤ b)) l).Pairwise (fun a b => a ≤ b) := by
  suffices h : ∀ (l acc : List Nat), acc.Pairwise (fun a b => a ≤ b) →
      ((l.foldl (insSorted (fun a b => decide (a ≤ b))) acc).Pairwise
        (fun a b => a ≤ b)) by
    simpa [sortByD] using h l [] (by simp)
  intro l
  induction l with
  | nil => intro acc h; exact h
  | cons x xs ih =>
    intro acc h
    exact ih _ (insSorted_pairwise_le x acc h)

theorem nodup_rdedup_sorted (l : List Nat) :
    (rdedup (sortByD (fun a b => decide (a ≤ b)) l)).Nodup :=
  List.Pairwise.imp (fun h => Nat.ne_of_lt h)
    (rdedup_pairwise_lt _ (sortByD_pairwise_le l))

theorem linkOk_mono {len len' nid : Nat} {adj : List NodeId} (h : len ≤ len')
    (hok : LinkOk len nid adj) : LinkOk len' nid adj :=
  ⟨hok.1, fun x hx => ⟨Nat.lt_of_lt_of_le (hok.2 x hx).1 h, (hok.2 x hx).2⟩⟩

theorem linkOk_nil (len nid : Nat) : LinkOk len nid [] :=
  ⟨List.nodup_nil, fun x hx => absurd hx (List.not_mem_nil x)⟩

theorem linkOk_clean {len nid : Nat} (l : List Nat) (p : Nat → Bool)
    (hp : ∀ x, p x = true → x < len ∧ x ≠ nid) :
    LinkOk len nid (rdedup (sortByD (fun a b => decide (a ≤ b)) (l.filter p))) := by
  refine ⟨nodup_rdedup_sorted _, ?_⟩
  intro x hx
  have h1 : x ∈ sortByD (fun a b => decide (a ≤ b)) (l.filter p) :=
    rdedup_subset _ x hx
  have h2 : x ∈ l.filter p := (sortByD_perm _ _).mem_iff.mp h1
  exact hp x (List.of_mem_filter h2)

theorem getLastD_mem : ∀ (t : List Nat) (a : Nat), t.getLastD a ∈ a :: t := by
  intro t
  induction t with
  | nil => intro a; simp
  | cons z t ih =>
    intro a
    rw [List.getLastD_cons]
    exact List.mem_cons_of_mem a (ih z)

theorem mem_swapRemove {xs : List Nat} {i : Nat} : ∀ a ∈ swapRemove xs i, a ∈ xs := by
  intro a ha
  have h1 : a ∈ xs.set i (xs.getLastD 0) := (List.dropLast_sublist _).subset ha
  rcases List.mem_or_eq_of_mem_set h1 with h | rfl
  · exact h
  · cases xs with
    | nil => simpa using h1
    | cons y t =>
      rw [List.getLastD_cons]
      exact getLastD_mem t y

theorem nodup_set_of_not_mem : ∀ (l : List Nat) (b : Nat), b ∉ l → l.Nodup →
    ∀ i, (l.set i b).Nodup := by
  intro l
  induction l with
  | nil => intro b _ _ i; simp
  | cons a t ih =>
    intro b hb hnd i
    have hbt : b ∉ t := fun h => hb (List.mem_cons_of_mem a h)
    have hba : b ≠ a := fun h => hb (h ▸ List.mem_cons_self a t)
    have hat : a ∉ t := (List.nodup_cons.mp hnd).1
    have htnd : t.Nodup := (List.nodup_cons.mp hnd).2
    cases i with
    | zero =>
      rw [List.set_cons_zero]
      exact List.nodup_cons.mpr ⟨hbt, htnd⟩
    | succ i =>
      rw [List.set_cons_succ]
      refine List.nodup_cons.mpr ⟨?_, ih b hbt htnd i⟩
      intro hmem
      rcases List.mem_or_eq_of_mem_set hmem with h | h
      · exact hat h
      · exact hba h.symm

theorem dropLast_set (l : List Nat) (i b : Nat) (h : i + 1 < l.length) :
    (l.set i b).dropLast = l.dropLast.set i b := by
  apply List.ext_getElem
  · simp
  · intro n h1 h2
    have hn : n < l.dropLast.length := by simpa using h2
    have hnl : n < l.length := by
      rw [List.length_dropLast] at hn; omega
    rw [List.getElem_dropLast]
    by_cases hni : n = i
    · subst hni
      rw [List.getElem_set_self, List.getElem_set_self]
    · rw [List.getElem_set_ne (fun hh => hni hh.symm),
        List.getElem_set_ne (fun hh => hni hh.symm), List.getElem_dropLast]

theorem getLastD_not_mem_dropLast : ∀ (xs : List Nat), xs.Nodup →
    xs.getLastD 0 ∉ xs.dropLast := by
  intro xs
  induction xs with
  | nil => intro _; simp
  | cons y t ih =>
    intro hnd
    cases t with
    | nil => simp
    | cons c r =>
      intro hmem
      rw [List.getLastD_cons, List.dropLast_cons₂] at hmem
      have hyt : y ∉ c :: r := (List.nodup_cons.mp hnd).1
      have hnd2 : (c :: r).Nodup := (List.nodup_cons.mp hnd).2
      rcases List.mem_cons.mp hmem with h | h
      · have hval : (c :: r).getLastD y ∈ c :: r := by
          rw [List.getLastD_cons]
          exact getLastD_mem r c
        rw [h] at hval
        exact hyt hval
      · have ih2 := ih hnd2
        rw [List.getLastD_cons] at ih2 h
        exact ih2 h

theorem nodup_dropLast {xs : List Nat} (hnd : xs.Nodup) : xs.dropLast.Nodup :=
  hnd.sublist (List.dropLast_sublist xs)

theorem nodup_swapRemove {xs : List Nat} (hnd : xs.Nodup) (i : Nat) :
    (swapRemove xs i).Nodup := by
  show ((xs.set i (xs.getLastD 0)).dropLast).Nodup
  by_cases hi : i < xs.length
  · by_cases hlast : i + 1 < xs.length
    · rw [dropLast_set _ _ _ hlast]
      exact nodup_set_of_not_mem _ _ (getLastD_not_mem_dropLast xs hnd)
        (nodup_dropLast hnd) i
    · have he : (xs.set i (xs.getLastD 0)).dropLast = xs.dropLast := by
        apply List.ext_getElem
        · simp
        · intro n h1 h2
          have hn2 : n < xs.dropLast.length := h2
          have hnl : n < xs.length := by
            rw [List.length_dropLast] at hn2; omega
          have hni : ¬ i = n := by
            rw [List.length_dropLast] at hn2; omega
          rw [List.getElem_dropLast, List.getElem_dropLast,
            List.getElem_set_ne hni]
      rw [he]
      exact nodup_dropLast hnd
  · rw [List.set_eq_of_length_le (Nat.le_of_not_lt hi)]
    exact nodup_dropLast hnd

/-! Step lemmas: every arena write of the mutating operations preserves
`I3weak`. -/

theorem I3weak_congr {g1 g2 : Graph} (h : g2.nodes = g1.nodes) (hw : I3weak g1) :
    I3weak g2 := by
  intro nid hl hdel adj hadj
  rw [h] at hl ⊢
  rw [getNode_congr h nid] at hdel hadj
  exact hw nid hl hdel adj hadj

theorem I3weak_setNode {g : Graph} {i : NodeId} {n : Node} (hw : I3weak g)
    (hn : n.deleted = false → ∀ adj ∈ n.links, LinkOk g.nodes.length i adj) :
    I3weak (setNode g i n) := by
  intro j hj hdel adj hadj
  rw [nodes_length_setNode] at hj ⊢
  by_cases hij : i = j
  · subst hij
    rw [getNode_setNode_self n hj] at hdel hadj
    exact hn hdel adj hadj
  · rw [getNode_setNode_ne n hij] at hdel hadj
    exact hw j hj hdel adj hadj

theorem I3weak_setNode_keep {g : Graph} {i : NodeId} {n : Node} (hw : I3weak g)
    (hl : n.links = (getNode g i).links) (hd : n.deleted = (getNode g i).deleted) :
    I3weak (setNode g i n) := by
  refine I3weak_setNode hw ?_
  intro hdel adj hadj
  rw [hl] at hadj
  rw [hd] at hdel
  by_cases hi : i < g.nodes.length
  · exact hw i hi hdel adj hadj
  · rw [getNode_default_of_le (Nat.le_of_not_lt hi)] at hdel
    exact absurd hdel (by decide)

theorem I3weak_setNode_ensure {g : Graph} {i : NodeId} (hw : I3weak g) (layer : Nat) :
    I3weak (setNode g i ((getNode g i).ensureLayer layer)) := by
  refine I3weak_setNode hw ?_
  intro hdel adj hadj
  unfold Node.ensureLayer at hdel hadj
  by_cases hc : layer < (getNode g i).links.length
  · rw [if_pos hc] at hdel hadj
    by_cases hi : i < g.nodes.length
    · exact hw i hi hdel adj hadj
    · rw [getNode_default_of_le (Nat.le_of_not_lt hi)] at hdel
      exact absurd hdel (by decide)
  · rw [if_neg hc] at hdel hadj
    have hdel' : (getNode g i).deleted = false := hdel
    have hadj' : adj ∈ (getNode g i).links ++
        List.replicate (layer + 1 - (getNode g i).links.length) [] := hadj
    rcases List.mem_append.mp hadj' with h | h
    · by_cases hi : i < g.nodes.length
      · exact hw i hi hdel' adj h
      · rw [getNode_default_of_le (Nat.le_of_not_lt hi)] at hdel'
        exact absurd hdel' (by decide)
    · rw [List.eq_of_mem_replicate h]
      exact linkOk_nil _ _

theorem I3weak_setNode_setLayer {g : Graph} {i : NodeId} {layer : Nat}
    {adj : List NodeId} (hw : I3weak g) (hok : LinkOk g.nodes.length i adj) :
    I3weak (setNode g i (setLayer (getNode g i) layer adj)) := by
  refine I3weak_setNode hw ?_
  intro hdel adj' hadj'
  have hdel' : (getNode g i).deleted = false := hdel
  have hadj2 : adj' ∈ (getNode g i).links.set layer adj := hadj'
  rcases List.mem_or_eq_of_mem_set hadj2 with h | rfl
  · by_cases hi : i < g.nodes.length
    · exact hw i hi hdel' adj' h
    · rw [getNode_default_of_le (Nat.le_of_not_lt hi)] at hdel'
      exact absurd hdel' (by decide)
  · exact hok

/-- The keep-loop of `prune_degree_hnsw` yields a duplicate-free sub-selection
of the seed and the candidate keys. -/
theorem prKeep_spec (g : Graph) (d : MetricFn) (nid m : Nat) :
    ∀ (cand : List (NodeId × ℚ)) (keep : List NodeId),
      (keep ++ cand.map Prod.fst).Nodup →
      ((g.prKeep d nid m cand keep).Nodup ∧
        ∀ x ∈ g.prKeep d nid m cand keep, x ∈ keep ∨ x ∈ cand.map Prod.fst) := by
  intro cand
  induction cand with
  | nil =>
    intro keep h
    refine ⟨by simpa using h, ?_⟩
    intro x hx
    exact Or.inl hx
  | cons c rest ih =>
    intro keep h
    rw [show g.prKeep d nid m (c :: rest) keep =
        if m ≤ keep.length then keep
        else if keep.all (fun s =>
            decide (d (getNode g c.1).vec (getNode g nid).vec <
              d (getNode g c.1).vec (getNode g s).vec))
        then g.prKeep d nid m rest (keep ++ [c.1])
        else g.prKeep d nid m rest keep from rfl]
    by_cases h1 : m ≤ keep.length
    · rw [if_pos h1]
      refine ⟨(List.sublist_append_left keep _).nodup h, ?_⟩
      intro x hx
      exact Or.inl hx
    · rw [if_neg h1]
      split
      · have h' : ((keep ++ [c.1]) ++ rest.map Prod.fst).Nodup := by
          rw [List.append_assoc, List.singleton_append]
          simpa using h
        obtain ⟨hnd, hmem⟩ := ih (keep ++ [c.1]) h'
        refine ⟨hnd, ?_⟩
        intro x hx
        rcases hmem x hx with hk | hr
        · rcases List.mem_append.mp hk with hk1 | hk2
          · exact Or.inl hk1
          · right
            simp only [List.map_cons]
            have hxc : x = c.1 := by simpa using hk2
            rw [hxc]
            exact List.mem_cons_self _ _
        · right
          simp only [List.map_cons]
          exact List.mem_cons_of_mem _ hr
      · have h' : (keep ++ rest.map Prod.fst).Nodup := by
          refine List.Sublist.nodup ?_ (by simpa using h)
          exact (List.sublist_cons_self c.1 (rest.map Prod.fst)).append_left keep
        obtain ⟨hnd, hmem⟩ := ih keep h'
        refine ⟨hnd, ?_⟩
        intro x hx
        rcases hmem x hx with hk | hr
        · exact Or.inl hk
        · right
          simp only [List.map_cons]
          exact List.mem_cons_of_mem _ hr

/-- The pruned adjacency written by `prune_degree_hnsw` is `LinkOk` whenever
the node's current adjacency is duplicate-free. -/
theorem linkOk_prKeep (g : Graph) (d : MetricFn) (nid m : Nat) (adjL : List NodeId)
    (hnd : adjL.Nodup) :
    LinkOk g.nodes.length nid (g.prKeep d nid m
      (sortByD (fun a b => decide (a.2 ≤ b.2))
        ((adjL.filter (fun c =>
            decide (c < g.nodes.length) && !(getNode g c).deleted && c != nid)).map
          (fun c => (c, d (getNode g c).vec (getNode g nid).vec)))) []) := by
  set p : NodeId → Bool := fun c =>
    decide (c < g.nodes.length) && !(getNode g c).deleted && c != nid with hp
  set cand0 := adjL.filter p with hc0
  set candP := cand0.map (fun c => (c, d (getNode g c).vec (getNode g nid).vec)) with hcP
  have h1 : cand0.Nodup := List.Nodup.filter p hnd
  have h2 : candP.map Prod.fst = cand0 := by
    rw [hcP, List.map_map]
    exact List.map_id cand0
  have h3 : List.Perm ((sortByD (fun a b => decide (a.2 ≤ b.2)) candP).map Prod.fst)
      (candP.map Prod.fst) := (sortByD_perm _ candP).map Prod.fst
  have h4 : ((sortByD (fun a b => decide (a.2 ≤ b.2)) candP).map Prod.fst).Nodup :=
    h3.nodup_iff.mpr (h2 ▸ h1)
  have h5 := prKeep_spec g d nid m (sortByD (fun a b => decide (a.2 ≤ b.2)) candP) []
    (by simpa using h4)
  refine ⟨h5.1, ?_⟩
  intro x hx
  rcases h5.2 x hx with h | h
  · exact absurd h (List.not_mem_nil x)
  · have h6 : x ∈ cand0 := by
      have h7 := h3.mem_iff.mp h
      rwa [h2] at h7
    have h8 := List.of_mem_filter h6
    rw [hp] at h8
    simp only [Bool.and_eq_true, decide_eq_true_eq, bne_iff_ne] at h8
    exact ⟨h8.1.1, h8.2⟩

theorem I3weak_prune {g : Graph} (d : MetricFn) (nid layer m : Nat) (hw : I3weak g) :
    I3weak (g.prune_degree_hnsw d nid layer m) := by
  simp only [Graph.prune_degree_hnsw]
  split
  · exact hw
  · next hgt =>
    have hlen : nid < g.nodes.length := by
      by_contra hno
      rw [getNode_default_of_le (Nat.le_of_not_lt hno)] at hgt
      exact hgt (show (([] : List (List NodeId)).getD layer []).length ≤ m from
        Nat.zero_le m)
    refine I3weak_setNode hw ?_
    intro hdelF adj' hadj'
    have hdel : (getNode g nid).deleted = false := hdelF
    rcases List.mem_or_eq_of_mem_set hadj' with h | rfl
    · exact hw nid hlen hdel adj' h
    · have hadjnd : ((getNode g nid).links.getD layer []).Nodup := by
        by_cases hc : layer < (getNode g nid).links.length
        · have hmem : (getNode g nid).links.getD layer [] ∈ (getNode g nid).links := by
            rw [List.getD_eq_getElem _ _ hc]
            exact List.getElem_mem _
          exact (hw nid hlen hdel _ hmem).1
        · rw [getD_out_of_range _ (Nat.le_of_not_lt hc)]
          exact List.nodup_nil
      exact linkOk_prKeep g d nid m _ hadjnd

theorem I3weak_connectBack (d : MetricFn) (nid layer m : Nat) (st : Graph × Int)
    (s : NodeId) (hw : I3weak st.1) :
    I3weak (Graph.connectBack d nid layer m st s).1 := by
  have hA : I3weak (setNode st.1 s ((getNode st.1 s).recompute_bytes).1) :=
    I3weak_setNode_keep hw rfl rfl
  set gA := setNode st.1 s ((getNode st.1 s).recompute_bytes).1 with hgA
  set A := rdedup (sortByD (fun a b => decide (a ≤ b))
    (((getNode gA s).links.getD layer [] ++ [nid]).filter (fun x =>
      x != s && decide (x < gA.nodes.length) && !(getNode gA x).deleted))) with hAdef
  have hok : LinkOk gA.nodes.length s A := by
    rw [hAdef]
    refine linkOk_clean _ _ ?_
    intro x hx
    simp only [Bool.and_eq_true, bne_iff_ne, decide_eq_true_eq] at hx
    exact ⟨hx.1.2, hx.1.1⟩
  have hB : I3weak (setNode gA s (setLayer (getNode gA s) layer A)) :=
    I3weak_setNode_setLayer hA hok
  set gB := setNode gA s (setLayer (getNode gA s) layer A) with hgB
  have hC : I3weak (gB.prune_degree_hnsw d s layer m) := I3weak_prune d s layer m hB
  have hD : I3weak (setNode (gB.prune_degree_hnsw d s layer m) s
      ((getNode (gB.prune_degree_hnsw d s layer m) s).recompute_bytes).1) :=
    I3weak_setNode_keep hC rfl rfl
  exact hD

theorem I3weak_connect (g0 : Graph) (d : MetricFn) (nid : NodeId) (neigh : List NodeId)
    (m layer : Nat) (hw : I3weak g0) : I3weak (g0.connect d nid neigh m layer) := by
  set sv := (g0.selectNeigh d nid m neigh []).filter (fun s =>
    decide (s < g0.nodes.length) && !(getNode g0 s).deleted && s != nid) with hsv
  have h1 : I3weak (setNode g0 nid ((getNode g0 nid).ensureLayer layer)) :=
    I3weak_setNode_ensure hw layer
  set g1 := setNode g0 nid ((getNode g0 nid).ensureLayer layer) with hg1def
  have h2 : I3weak (sv.foldl (fun g s => setNode g s ((getNode g s).ensureLayer layer)) g1) :=
    foldl_inv I3weak _ sv g1 h1 (fun g s hg => I3weak_setNode_ensure hg layer)
  set g2 := sv.foldl (fun g s => setNode g s ((getNode g s).ensureLayer layer)) g1 with hg2def
  have h3 : I3weak (setNode g2 nid ((getNode g2 nid).recompute_bytes).1) :=
    I3weak_setNode_keep h2 rfl rfl
  set g3 := setNode g2 nid ((getNode g2 nid).recompute_bytes).1 with hg3def
  set A := rdedup (sortByD (fun a b => decide (a ≤ b))
    (((getNode g3 nid).links.getD layer [] ++ sv).filter (fun x =>
      x != nid && decide (x < g3.nodes.length) && !(getNode g3 x).deleted))) with hAdef
  have hok : LinkOk g3.nodes.length nid A := by
    rw [hAdef]
    refine linkOk_clean _ _ ?_
    intro x hx
    simp only [Bool.and_eq_true, bne_iff_ne, decide_eq_true_eq] at hx
    exact ⟨hx.1.2, hx.1.1⟩
  have h4 : I3weak (setNode g3 nid (setLayer (getNode g3 nid) layer A)) :=
    I3weak_setNode_setLayer h3 hok
  set g4 := setNode g3 nid (setLayer (getNode g3 nid) layer A) with hg4def
  have h5 : I3weak (setNode g4 nid ((getNode g4 nid).recompute_bytes).1) :=
    I3weak_setNode_keep h4 rfl rfl
  set g5 := setNode g4 nid ((getNode g4 nid).recompute_bytes).1 with hg5def
  have h6 : I3weak ((sv.foldl (Graph.connectBack d nid layer m)
      (g5, ((((getNode g4 nid).recompute_bytes).2 : Int) -
        (((getNode g2 nid).recompute_bytes).2 : Int)))).1) :=
    foldl_inv (fun s => I3weak s.1) _ sv _ h5
      (fun a b ha => I3weak_connectBack d nid layer m a b ha)
  have h7 : I3weak (((sv.foldl (Graph.connectBack d nid layer m)
      (g5, ((((getNode g4 nid).recompute_bytes).2 : Int) -
        (((getNode g2 nid).recompute_bytes).2 : Int)))).1).prune_degree_hnsw d nid layer m) :=
    I3weak_prune d nid layer m h6
  exact I3weak_congr (applyDelta_nodes _ _) h7

theorem I3weak_addLayer (d : MetricFn) (node_id : NodeId) (m ef entry : Nat)
    (g : Graph) (l : Nat) (hw : I3weak g) :
    I3weak (Graph.addLayer d node_id m ef entry g l) :=
  I3weak_connect g d node_id _ m l hw

theorem I3weak_addFinish (g0 : Graph) (d : MetricFn) (node_id : NodeId)
    (m ef entry lvl old_max : Nat) (hw : I3weak g0) :
    I3weak (g0.addFinish d node_id m ef entry lvl old_max) := by
  have h1 : I3weak ((revRange 0 lvl).foldl (Graph.addLayer d node_id m ef entry) g0) :=
    foldl_inv I3weak _ _ g0 hw (fun g l hg => I3weak_addLayer d node_id m ef entry g l hg)
  refine I3weak_congr ?_ h1
  simp only [Graph.addFinish]
  split <;> split <;> rfl

theorem I3weak_addPadPush (g1 : Graph) (e lvl now : Nat) (v : Vec) (hw : I3weak g1) :
    I3weak (addPadPush g1 e lvl now v) := by
  have hP := addPadPush_facts g1 e lvl now v
  intro j hj hdel adj hadj
  rw [hP.1] at hj ⊢
  by_cases hjl : j = g1.nodes.length
  · subst hjl
    rw [hP.2.1] at hadj
    have hmem : adj ∈ List.replicate (lvl + 1) ([] : List NodeId) := hadj
    rw [List.eq_of_mem_replicate hmem]
    exact linkOk_nil _ _
  · rw [hP.2.2.1 j hjl] at hdel hadj
    have hjlt : j < g1.nodes.length := by omega
    exact linkOk_mono (Nat.le_succ _) (hw j hjlt hdel adj hadj)

theorem I3weak_deleteNb (nid : NodeId) (l : Nat) (st : Graph × Int) (nb : NodeId)
    (hw : I3weak st.1) : I3weak (Graph.deleteNb nid l st nb).1 := by
  simp only [Graph.deleteNb]
  split
  · exact hw
  · next h1 =>
    split
    · exact hw
    · next h2 =>
      split
      · exact hw
      · next h3 =>
        have hnb : nb < st.1.nodes.length := Nat.lt_of_not_le h1
        have hdel : (getNode st.1 nb).deleted = false := by
          simpa using h2
        have hl3 : l < (getNode st.1 nb).links.length := Nat.lt_of_not_le h3
        have base : LinkOk st.1.nodes.length nb ((getNode st.1 nb).links.getD l []) := by
          have hmem : (getNode st.1 nb).links.getD l [] ∈ (getNode st.1 nb).links := by
            rw [List.getD_eq_getElem _ _ hl3]
            exact List.getElem_mem _
          exact hw nb hnb hdel _ hmem
        have hA : I3weak (setNode st.1 nb ((getNode st.1 nb).recompute_bytes).1) :=
          I3weak_setNode_keep hw rfl rfl
        set gA := setNode st.1 nb ((getNode st.1 nb).recompute_bytes).1 with hgA
        have hgAnb : getNode gA nb = ((getNode st.1 nb).recompute_bytes).1 := by
          rw [hgA]
          exact getNode_setNode_self _ hnb
        have hok : LinkOk gA.nodes.length nb
            (match ((getNode gA nb).links.getD l []).findIdx? (fun x => x == nid) with
              | some pos => swapRemove ((getNode gA nb).links.getD l []) pos
              | none => (getNode gA nb).links.getD l []) := by
          have hlinks : (getNode gA nb).links = (getNode st.1 nb).links := by
            rw [hgAnb]
            exact recompute_links _
          have hlen2 : gA.nodes.length = st.1.nodes.length := by
            rw [hgA]
            exact nodes_length_setNode _ _ _
          rw [hlinks, hlen2]
          cases ((getNode st.1 nb).links.getD l []).findIdx? (fun x => x == nid) with
          | none => exact base
          | some pos =>
            exact ⟨nodup_swapRemove base.1 pos,
              fun x hx => base.2 x (mem_swapRemove x hx)⟩
        have hB : I3weak (setNode gA nb (setLayer (getNode gA nb) l
            (match ((getNode gA nb).links.getD l []).findIdx? (fun x => x == nid) with
              | some pos => swapRemove ((getNode gA nb).links.getD l []) pos
              | none => (getNode gA nb).links.getD l []))) :=
          I3weak_setNode_setLayer hA hok
        set gB := setNode gA nb (setLayer (getNode gA nb) l
            (match ((getNode gA nb).links.getD l []).findIdx? (fun x => x == nid) with
              | some pos => swapRemove ((getNode gA nb).links.getD l []) pos
              | none => (getNode gA nb).links.getD l [])) with hgB
        have hC : I3weak (setNode gB nb ((getNode gB nb).recompute_bytes).1) :=
          I3weak_setNode_keep hB rfl rfl
        exact hC

theorem I3weak_deleteLayer (nid : NodeId) (st : Graph × Int) (l : Nat)
    (hw : I3weak st.1) : I3weak (Graph.deleteLayer nid st l).1 := by
  simp only [Graph.deleteLayer]
  refine foldl_inv (fun s => I3weak s.1) (Graph.deleteNb nid l) _ _ ?_
    (fun a b ha => I3weak_deleteNb nid l a b ha)
  exact I3weak_setNode_setLayer hw (linkOk_nil _ _)

theorem I3weak_deleteUnlink (g0 : Graph) (nid : NodeId) (hw : I3weak g0) :
    I3weak (g0.deleteUnlink nid).1 := by
  simp only [Graph.deleteUnlink]
  have h1 : I3weak (setNode g0 nid ((getNode g0 nid).recompute_bytes).1) :=
    I3weak_setNode_keep hw rfl rfl
  have h2 : I3weak ((List.range
      ((getNode (setNode g0 nid ((getNode g0 nid).recompute_bytes).1) nid).links.length)).foldl
        (Graph.deleteLayer nid)
        (setNode g0 nid ((getNode g0 nid).recompute_bytes).1, (0 : Int))).1 :=
    foldl_inv (fun s => I3weak s.1) _ _ _ h1 (fun a b ha => I3weak_deleteLayer nid a b ha)
  exact I3weak_setNode_keep h2 rfl rfl

theorem I3weak_deleteMark (g0 : Graph) (nid : NodeId) (hw : I3weak g0) :
    I3weak (g0.deleteMark nid).1 := by
  simp only [Graph.deleteMark]
  have h1 : I3weak (setNode g0 nid ((getNode g0 nid).recompute_bytes).1) :=
    I3weak_setNode_keep hw rfl rfl
  set gA := setNode g0 nid ((getNode g0 nid).recompute_bytes).1 with hgA
  have h2 : I3weak (setNode gA nid { getNode gA nid with vec := [], deleted := true }) := by
    refine I3weak_setNode h1 ?_
    intro hdel adj hadj
    simp at hdel
  exact I3weak_setNode_keep h2 rfl rfl

theorem I3weak_deleteRegistry (g0 : Graph) (nid : NodeId) (hw : I3weak g0) :
    I3weak (g0.deleteRegistry nid) :=
  I3weak_congr (deleteRegistry_nodes g0 nid) hw

theorem I3weak_delete (g0 : Graph) (e : Nat) (hw : I3weak g0) :
    I3weak ((g0.delete e).1) := by
  cases hl : extLookup g0.by_ext e with
  | none =>
    rw [delete_none hl]
    exact hw
  | some nid =>
    simp only [Graph.delete, hl]
    have hg : I3weak { g0 with by_ext := extRemove g0.by_ext e } := I3weak_congr rfl hw
    split
    · exact hg
    · split
      · exact hg
      · refine I3weak_congr (applyDelta_nodes _ _) ?_
        exact I3weak_deleteRegistry _ _ (I3weak_deleteMark _ _ (I3weak_deleteUnlink _ _ hg))

theorem I3weak_addNode (g1 : Graph) (d : MetricFn) (v : Vec) (e m ef lvl now : Nat)
    (hw : I3weak g1) : I3weak (g1.addNode d v e m ef lvl now) := by
  simp only [Graph.addNode]
  exact I3weak_addFinish _ d _ m ef _ lvl _ (I3weak_addPadPush g1 e lvl now v hw)

theorem I3weak_add (g0 : Graph) (d : MetricFn) (v : Vec) (e m ef lvl now : Nat)
    (hw : I3weak g0) : I3weak (g0.add d v e m ef lvl now) := by
  simp only [Graph.add]
  cases hl : extLookup g0.by_ext e with
  | some nid => exact I3weak_addNode _ d v e m ef lvl now (I3weak_delete g0 e hw)
  | none => exact I3weak_addNode _ d v e m ef lvl now hw

theorem I3weak_evict_ttl (g0 : Graph) (ttl now : Nat) (hw : I3weak g0) :
    I3weak ((g0.evict_ttl ttl now).1) := by
  simp only [Graph.evict_ttl]
  refine I3weak_congr (repair_nodes _) ?_
  refine foldl_inv (fun s : Graph × Nat => I3weak s.1) _ _ _ hw ?_
  intro a b ha
  simp only [Graph.ttlStep]
  split
  · exact ha
  · split
    · exact I3weak_delete _ _ ha
    · exact ha

theorem I3weak_lruLoop (mv mb : Option Nat) :
    ∀ (l : List (Nat × NodeId)) (st : Graph × Nat), I3weak st.1 →
      I3weak (Graph.lruLoop mv mb l st).1 := by
  intro l
  induction l with
  | nil => intro st h; exact h
  | cons e rest ih =>
    intro st h
    simp only [Graph.lruLoop]
    split
    · exact h
    · split
      · exact ih st h
      · exact ih _ (I3weak_delete _ _ h)

theorem I3weak_evict_lru (g0 : Graph) (mv mb : Option Nat) (now : Nat) (hw : I3weak g0) :
    I3weak ((g0.evict_lru_until mv mb now).1) := by
  simp only [Graph.evict_lru_until]
  split
  · exact hw
  · refine I3weak_congr (repair_nodes _) ?_
    exact I3weak_lruLoop mv mb _ _ hw

/-! `sanitize` establishes the full invariant I3 on every graph. -/

theorem sanitizeNode_fst_deleted (nlen : Nat) (flags : List Bool) (i : Nat) (n : Node) :
    (sanitizeNode nlen flags i n).1.deleted = n.deleted := by
  by_cases h : n.links.isEmpty <;> simp [sanitizeNode, h]

theorem sanitize_length (g : Graph) : (g.sanitize).1.nodes.length = g.nodes.length := by
  show (((((List.range g.nodes.length).zip g.nodes).map
      (fun p => sanitizeNode g.nodes.length (g.nodes.map (fun n => n.deleted)) p.1 p.2)).map
      (fun x => x.1)).map (fun n => n.recompute_bytes.1)).length = g.nodes.length
  simp

theorem sanitize_getNode (g : Graph) (j : Nat) (hj : j < g.nodes.length) :
    getNode (g.sanitize).1 j =
      ((sanitizeNode g.nodes.length (g.nodes.map (fun n => n.deleted)) j
        (getNode g j)).1.recompute_bytes).1 := by
  show (((((List.range g.nodes.length).zip g.nodes).map
      (fun p => sanitizeNode g.nodes.length (g.nodes.map (fun n => n.deleted)) p.1 p.2)).map
      (fun x => x.1)).map (fun n => n.recompute_bytes.1)).getD j default = _
  have hlz : ((List.range g.nodes.length).zip g.nodes).length = g.nodes.length := by
    simp
  rw [List.getD_eq_getElem _ _ (by simpa using hj)]
  rw [List.getElem_map, List.getElem_map, List.getElem_map, List.getElem_zip,
    List.getElem_range]
  rw [show getNode g j = g.nodes[j] from by rw [getNode, List.getD_eq_getElem _ _ hj]]

theorem flags_getD (g : Graph) (x : Nat) (hx : x < g.nodes.length) :
    (g.nodes.map (fun n => n.deleted)).getD x true = (getNode g x).deleted := by
  rw [List.getD_eq_getElem _ _ (by simpa using hx), List.getElem_map]
  rw [getNode, List.getD_eq_getElem _ _ hx]

theorem linkOk_cleanLinks (nlen : Nat) (flags : List Bool) (nid : NodeId)
    (adj : List NodeId) : LinkOk nlen nid (cleanLinks nlen flags nid adj) := by
  unfold cleanLinks
  refine linkOk_clean adj _ ?_
  intro x hx
  simp only [Bool.and_eq_true, decide_eq_true_eq, bne_iff_ne] at hx
  exact ⟨hx.1.1, hx.1.2⟩

theorem cleanLinks_active (nlen : Nat) (flags : List Bool) (nid : NodeId)
    (adj : List NodeId) :
    ∀ x ∈ cleanLinks nlen flags nid adj, flags.getD x true = false := by
  intro x hx
  unfold cleanLinks at hx
  have h2 := (sortByD_perm (fun a b => decide (a ≤ b)) _).mem_iff.mp
    (rdedup_subset _ x hx)
  have h3 := List.of_mem_filter h2
  simp only [Bool.and_eq_true, Bool.not_eq_true'] at h3
  exact h3.2

theorem I3_sanitize (g : Graph) : I3 ((g.sanitize).1) := by
  intro nid hl hdel adj hadj
  rw [sanitize_length] at hl
  rw [sanitize_getNode g nid hl] at hadj
  rw [recompute_links, sanitizeNode_fst_links] at hadj
  rcases List.mem_map.mp hadj with ⟨adj0, hadj0, rfl⟩
  have hok := linkOk_cleanLinks g.nodes.length (g.nodes.map (fun n => n.deleted)) nid adj0
  have hact := cleanLinks_active g.nodes.length (g.nodes.map (fun n => n.deleted)) nid adj0
  refine ⟨hok.1, ?_⟩
  intro x hx
  have h1 := hok.2 x hx
  have h2 := hact x hx
  rw [flags_getD g x h1.1] at h2
  refine ⟨?_, ?_, h1.2⟩
  · rw [sanitize_length]
    exact h1.1
  · rw [sanitize_getNode g x h1.1]
    rw [show ∀ n : Node, (n.recompute_bytes.1).deleted = n.deleted from fun _ => rfl,
      sanitizeNode_fst_deleted]
    exact h2

/-- C1 (counterexample): the invariant does NOT survive `delete`.  On the
four-insert trace `gTrace1` the checker `i3Holds` accepts the graph, but after
`delete 100` (which returns `true`) the still-active node 1 keeps the layer-0
adjacency `[0, 3]` while node 0 is now a tombstone — a dangling link, because
`Graph::delete` removes the deleted node's half of each edge but neighbors of
the deleted node that were not linked back (pruning is asymmetric) keep their
links to it.  Hence `I3` itself is refuted on the post-delete graph. -/
theorem c1_counterexample :
    i3Holds gTrace1 = true ∧
    (gTrace1.delete 100).2 = true ∧
    i3Holds ((gTrace1.delete 100).1) = false ∧
    (getNode (gTrace1.delete 100).1 1).deleted = false ∧
    (getNode (gTrace1.delete 100).1 0).deleted = true ∧
    (getNode (gTrace1.delete 100).1 1).links = [[0, 3]] ∧
    ¬ I3 ((gTrace1.delete 100).1) := by
  refine ⟨by decide, by decide, by decide, by decide, by decide, by decide, ?_⟩
  intro h
  have h2 := h 1 (by decide) (by decide) [0, 3] (by decide)
  have h3 := (h2.2 0 (by decide)).2.1
  exact absurd h3 (by decide)

/-- C1 (amended): `sanitize` (and hence every import) establishes the full
invariant I3 on any graph whatsoever; every other mutating operation —
`delete`, `add` (= insert, including its upsert path), `evict_ttl` and
`evict_lru_until` — preserves the fragment `I3weak` of I3 (active nodes'
adjacencies are duplicate-free, self-free and in-range), but not the remaining
fragment that links target only active nodes, which `delete` breaks
(see the counterexample) until the next `sanitize`. -/
theorem c1_invariant :
    (∀ g : Graph, I3 ((g.sanitize).1)) ∧
    (∀ (g : Graph) (e : Nat), I3weak g → I3weak ((g.delete e).1)) ∧
    (∀ (g : Graph) (d : MetricFn) (v : Vec) (e m ef lvl now : Nat),
      I3weak g → I3weak (g.add d v e m ef lvl now)) ∧
    (∀ (g : Graph) (ttl now : Nat), I3weak g → I3weak ((g.evict_ttl ttl now).1)) ∧
    (∀ (g : Graph) (mv mb : Option Nat) (now : Nat),
      I3weak g → I3weak ((g.evict_lru_until mv mb now).1)) :=
  ⟨I3_sanitize,
   fun g e hw => I3weak_delete g e hw,
   fun g d v e m ef lvl now hw => I3weak_add g d v e m ef lvl now hw,
   fun g ttl now hw => I3weak_evict_ttl g ttl now hw,
   fun g mv mb now hw => I3weak_evict_lru g mv mb now hw⟩

/-- C1 witness: the amended theorem applied to the concrete trace `gTrace1`
(whose `I3weak` hypothesis is checked by evaluation) and to its `sanitize`. -/
theorem c1_witness :
    I3weak gTrace1 ∧ I3weak ((gTrace1.delete 100).1) ∧ I3 ((gTrace1.sanitize).1) := by
  have h : I3weak gTrace1 := by
    unfold I3weak LinkOk
    decide
  exact ⟨h, c1_invariant.2.1 gTrace1 100 h, c1_invariant.1 gTrace1⟩

end VCal
